import Mathlib

/-!
Verification of the format-to-HTML conversion core of the pdf-generation-engine
repository: the JSON converter (src/converters/jsonConverter.js), the text
converter (src/converters/textConverter.js), the Markdown converter's
frontmatter handling (src/converters/markdownConverter.js), the content-type
detector and option validation (src/utils/helpers.js), the conversion
orchestrator (src/index.js) and the HTTP endpoint's validation gate
(src/server/app.js).

Modelling conventions:
- Strings are `List Char`; JavaScript string operations are translated to
  list functions.  String literals from the source are transcribed exactly,
  including the whitespace of template literals.
- JSON numbers are modelled as integers (`Int`): every number appearing in
  the claims is integral, and floating point is outside the embedding.
- JavaScript objects produced by `JSON.parse` have unique keys, so object
  field lists are modelled as association lists looked up by first match.
- Fallible code returns `Option`/`Except`; a JavaScript `throw` is an
  `Except.error` carrying the message.
-/

set_option maxRecDepth 16384

namespace PdfEngine

/-- Character strings, the model of JavaScript strings. -/
abbrev Str := List Char

/-- The apostrophe character (U+0027). -/
def apos : Char := Char.ofNat 39

/-- Concatenating map over characters, the model of `String.prototype.replace`
with a character-class regex and a per-character replacement. -/
def concatMap (f : Char → Str) : Str → Str
  | [] => []
  | c :: cs => f c ++ concatMap f cs

/-- Per-character HTML escaping map of `escapeHtml` (jsonConverter.js lines
190-199; the same map appears in the text, HTML and Markdown converters). -/
def escapeHtmlChar (c : Char) : Str :=
  if c = '&' then "&amp;".data
  else if c = '<' then "&lt;".data
  else if c = '>' then "&gt;".data
  else if c = '"' then "&quot;".data
  else if c = apos then "&#039;".data
  else [c]

/-- The converters' `escapeHtml`: `text.replace(/[&<>"']/g, m => map[m])`. -/
def escapeHtml (s : Str) : Str := concatMap escapeHtmlChar s

mutual
/-- JSON value tree as produced by `JSON.parse` (numbers modelled as `Int`,
see the header comment). -/
inductive Json where
  | null
  | bool (b : Bool)
  | num (n : Int)
  | str (s : Str)
  | arr (items : JList)
  | obj (fields : JFields)
deriving Repr

/-- A list of JSON values (the payload of a JSON array). -/
inductive JList where
  | nil
  | cons (hd : Json) (tl : JList)
deriving Repr

/-- Association list of JSON object fields. -/
inductive JFields where
  | nil
  | cons (key : Str) (val : Json) (tl : JFields)
deriving Repr
end

/-- Build a `JList` from a `List Json`. -/
def JList.ofList : List Json → JList
  | [] => .nil
  | x :: xs => .cons x (JList.ofList xs)

/-- View a `JList` as a `List Json`. -/
def JList.toList : JList → List Json
  | .nil => []
  | .cons x xs => x :: JList.toList xs

/-- Build a `JFields` from an association list. -/
def JFields.ofList : List (Str × Json) → JFields
  | [] => .nil
  | (k, v) :: xs => .cons k v (JFields.ofList xs)

/-- Length of a `JList`. -/
def JList.length : JList → Nat
  | .nil => 0
  | .cons _ xs => 1 + JList.length xs

/-- Keys of an object's field list, in order (`Object.keys`). -/
def JFields.keys : JFields → List Str
  | .nil => []
  | .cons k _ fs => k :: JFields.keys fs

/-- First-match lookup in an object's field list (property access on a
`JSON.parse` object, whose keys are unique). -/
def JFields.lookup : JFields → Str → Option Json
  | .nil, _ => none
  | .cons k v fs, key => if k = key then some v else JFields.lookup fs key

/-- Membership of a key (`Object.prototype.hasOwnProperty`). -/
def JFields.hasKey (fs : JFields) (key : Str) : Bool :=
  (fs.lookup key).isSome

/-- Decimal digit test on the code point. -/
def isDigitChar (c : Char) : Bool := 48 ≤ c.toNat && c.toNat ≤ 57

/-- Fuelled decimal rendering of a natural number (most significant digit
first); any fuel above the digit count gives the full numeral. -/
def natCharsF : Nat → Nat → Str
  | 0, _ => []
  | fuel + 1, n =>
      if n < 10 then [Char.ofNat (48 + n)]
      else natCharsF fuel (n / 10) ++ [Char.ofNat (48 + n % 10)]

/-- Decimal digits of a natural number. -/
def natChars (n : Nat) : Str := natCharsF (n + 1) n

/-- Decimal rendering of an integer, the model of JavaScript number-to-string
conversion for integral numbers. -/
def intChars : Int → Str
  | .ofNat m => natChars m
  | .negSucc m => '-' :: natChars (m + 1)

/-- A run of `n` spaces (the 2-space-per-level gap of `JSON.stringify`). -/
def spaces (n : Nat) : Str := List.replicate n ' '

/-- Lowercase hexadecimal digit for `n < 16`. -/
def hexDigit (n : Nat) : Char :=
  if n < 10 then Char.ofNat (48 + n) else Char.ofNat (87 + n)

/-- Escaping of one character inside a JSON string literal, as performed by
`JSON.stringify`. -/
def jsonEscapeChar (c : Char) : Str :=
  if c = '"' then ['\\', '"']
  else if c = '\\' then ['\\', '\\']
  else if c = '\x08' then ['\\', 'b']
  else if c = '\t' then ['\\', 't']
  else if c = '\n' then ['\\', 'n']
  else if c = '\x0c' then ['\\', 'f']
  else if c = '\r' then ['\\', 'r']
  else if c.toNat < 0x20 then
    ['\\', 'u', '0', '0', hexDigit (c.toNat / 16), hexDigit (c.toNat % 16)]
  else [c]

/-- A JSON string literal: quoted and escaped, as emitted by `JSON.stringify`. -/
def quoteJson (s : Str) : Str := '"' :: concatMap jsonEscapeChar s ++ ['"']

mutual
/-- Model of `JSON.stringify(value, null, 2)` at indentation `ind`: the
pretty-printer with a stable 2-space gap used by `formatTableCell` and
`jsonToRaw` (jsonConverter.js lines 178-188). -/
def stringifyAt : Nat → Json → Str
  | _, .null => "null".data
  | _, .bool true => "true".data
  | _, .bool false => "false".data
  | _, .num n => intChars n
  | _, .str s => quoteJson s
  | _, .arr .nil => "[]".data
  | ind, .arr (.cons x xs) =>
      '[' :: '\n' :: (stringifyItems (ind + 2) (.cons x xs) ++ '\n' :: (spaces ind ++ "]".data))
  | _, .obj .nil => "\x7b\x7d".data
  | ind, .obj (.cons k v fs) =>
      '\x7b' :: '\n' :: (stringifyFields (ind + 2) (.cons k v fs) ++ '\n' :: (spaces ind ++ ['\x7d']))

/-- Comma-and-newline separated array elements, each on its own indented line. -/
def stringifyItems : Nat → JList → Str
  | _, .nil => []
  | ind, .cons x .nil => spaces ind ++ stringifyAt ind x
  | ind, .cons x (.cons y ys) =>
      spaces ind ++ stringifyAt ind x ++ ',' :: '\n' :: stringifyItems ind (.cons y ys)

/-- Comma-and-newline separated object members, each on its own indented line. -/
def stringifyFields : Nat → JFields → Str
  | _, .nil => []
  | ind, .cons k v .nil => spaces ind ++ quoteJson k ++ ':' :: ' ' :: stringifyAt ind v
  | ind, .cons k v (.cons k2 v2 fs) =>
      spaces ind ++ quoteJson k ++ ':' :: ' ' :: stringifyAt ind v ++
        ',' :: '\n' :: stringifyFields ind (.cons k2 v2 fs)
end

/-- Top-level `JSON.stringify(value, null, 2)`. -/
def stringify (v : Json) : Str := stringifyAt 0 v

mutual
/-- Model of `JsonConverter.jsonToStructured` (jsonConverter.js lines 39-96):
the recursive color-coded renderer, template-literal whitespace transcribed
exactly.  The final `String(data)` fallback of line 95 is unreachable for
values produced by `JSON.parse` and has no counterpart here. -/
def jsonToStructured : Json → Nat → Str
  | .null, _ => "<span class=\"json-null\">null</span>".data
  | .str s, _ =>
      "<span class=\"json-string\">\"".data ++ escapeHtml s ++ "\"</span>".data
  | .num n, _ =>
      "<span class=\"json-number\">".data ++ intChars n ++ "</span>".data
  | .bool b, _ =>
      "<span class=\"json-boolean\">".data ++
        (cond b "true" "false").data ++ "</span>".data
  | .arr items, level =>
      match items with
      | .nil => "<span class=\"json-empty\">[]</span>".data
      | .cons _ _ =>
          "<div class=\"json-array\" style=\"margin-left: ".data ++
            natChars (level * 20) ++ "px;\">\n        <div class=\"json-bracket\">[</div>\n        ".data ++
            structuredItems items 0 level ++
            "\n        <div class=\"json-bracket\">]</div>\n      </div>".data
  | .obj fields, level =>
      match fields with
      | .nil => "<span class=\"json-empty\">\x7b\x7d</span>".data
      | .cons _ _ _ =>
          "<div class=\"json-object\" style=\"margin-left: ".data ++
            natChars (level * 20) ++ "px;\">\n        <div class=\"json-bracket\">\x7b</div>\n        ".data ++
            structuredFields fields level ++
            "\n        <div class=\"json-bracket\">\x7d</div>\n      </div>".data

/-- Array items of the structured renderer: `data.map((item, index) => ...)`
joined with the empty string, `index` threaded explicitly. -/
def structuredItems : JList → Nat → Nat → Str
  | .nil, _, _ => []
  | .cons x xs, index, level =>
      "<div class=\"json-array-item\">\n          <span class=\"json-index\">[".data ++
        natChars index ++ "]</span>\n          ".data ++
        jsonToStructured x (level + 1) ++ "\n        </div>".data ++
        structuredItems xs (index + 1) level

/-- Object items of the structured renderer: `keys.map(key => ...)` joined
with the empty string. -/
def structuredFields : JFields → Nat → Str
  | .nil, _ => []
  | .cons k v fs, level =>
      "<div class=\"json-object-item\">\n          <span class=\"json-key\">\"".data ++
        escapeHtml k ++ "\":</span>\n          <div class=\"json-value\">".data ++
        jsonToStructured v (level + 1) ++ "</div>\n        </div>".data ++
        structuredFields fs level
end

/-- Model of `JsonConverter.formatTableCell` (jsonConverter.js lines 178-183):
objects and arrays (`typeof value === 'object' && value !== null`) are
serialized with `JSON.stringify(value, null, 2)` inside a `pre` element, and
scalars are rendered with the structured renderer. -/
def formatTableCell : Json → Str
  | .arr items =>
      "<pre class=\"json-nested\">".data ++ stringifyAt 0 (.arr items) ++ "</pre>".data
  | .obj fields =>
      "<pre class=\"json-nested\">".data ++ stringifyAt 0 (.obj fields) ++ "</pre>".data
  | v => jsonToStructured v 0

/-- Test of `typeof item === 'object' && item !== null && !Array.isArray(item)`
(jsonConverter.js line 114). -/
def isPlainObject : Json → Bool
  | .obj _ => true
  | _ => false

/-- The `array.every(...)` guard of `arrayToTable`: every element is a
non-null, non-array object. -/
def allPlainObjects : JList → Bool
  | .nil => true
  | .cons x xs => isPlainObject x && allPlainObjects xs

/-- Insertion into the `allKeys` set: JavaScript `Set.prototype.add` preserves
first insertion order and ignores duplicates. -/
def setAdd (acc : List Str) (k : Str) : List Str :=
  if k ∈ acc then acc else acc ++ [k]

/-- Keys of one element as seen by `Object.keys(item)` in `arrayToTable`. -/
def itemKeys : Json → List Str
  | .obj fs => fs.keys
  | _ => []

/-- The `allKeys` accumulation of `arrayToTable` (jsonConverter.js lines
115-117): `array.forEach(item => Object.keys(item).forEach(key =>
allKeys.add(key)))`. -/
def collectKeys : JList → List Str → List Str
  | .nil, acc => acc
  | .cons x xs, acc => collectKeys xs (List.foldl setAdd acc (itemKeys x))

/-- Property access `item[key]` in the table cell (object case). -/
def getField : Json → Str → Option Json
  | .obj fs, key => fs.lookup key
  | _, _ => none

/-- One `td` cell of an object row: `item.hasOwnProperty(key) ?
this.formatTableCell(item[key]) : ''`. -/
def tableCell (item : Json) (key : Str) : Str :=
  "<td>".data ++
    (match getField item key with
     | some v => formatTableCell v
     | none => []) ++ "</td>".data

/-- Cells of one row, one per key of the key union. -/
def tableRowCells (item : Json) : List Str → Str
  | [] => []
  | k :: ks => tableCell item k ++ tableRowCells item ks

/-- Header cells: `keys.map(key => '<th>' + escapeHtml(key) + '</th>')`. -/
def headerCells : List Str → Str
  | [] => []
  | k :: ks => "<th>".data ++ escapeHtml k ++ "</th>".data ++ headerCells ks

/-- Data rows of the all-objects table, joined with the empty string. -/
def dataRows (keys : List Str) : JList → Str
  | .nil => []
  | .cons x xs =>
      "<tr>".data ++ tableRowCells x keys ++ "</tr>".data ++ dataRows keys xs

/-- Rows of the simple (index, value) table for arrays of non-objects
(jsonConverter.js lines 139-144), template whitespace transcribed exactly. -/
def simpleRows : JList → Nat → Str
  | .nil, _ => []
  | .cons x xs, index =>
      "<tr>\n        <td class=\"json-index\">".data ++ natChars index ++
        "</td>\n        <td>".data ++ formatTableCell x ++
        "</td>\n      </tr>".data ++ simpleRows xs (index + 1)

/-- Model of `JsonConverter.arrayToTable` (jsonConverter.js lines 108-156). -/
def arrayToTable (array : JList) : Str :=
  match array with
  | .nil => "<p class=\"json-empty\">Empty array</p>".data
  | _ =>
    if allPlainObjects array then
      let keys := collectKeys array []
      "\n        <table class=\"json-table\">\n          <thead>\n            <tr>".data ++
        headerCells keys ++
        "</tr>\n          </thead>\n          <tbody>\n            ".data ++
        dataRows keys array ++
        "\n          </tbody>\n        </table>\n      ".data
    else
      "\n      <table class=\"json-table\">\n        <thead>\n          <tr><th>Index</th><th>Value</th></tr>\n        </thead>\n        <tbody>\n          ".data ++
        simpleRows array 0 ++
        "\n        </tbody>\n      </table>\n    ".data

/-- Rows of the (key, value) table for a root object (jsonConverter.js lines
159-164). -/
def objectRows : JFields → Str
  | .nil => []
  | .cons k v fs =>
      "<tr>\n        <td class=\"json-key\">".data ++ escapeHtml k ++
        "</td>\n        <td>".data ++ formatTableCell v ++
        "</td>\n      </tr>".data ++ objectRows fs

/-- Model of `JsonConverter.objectToTable` (jsonConverter.js lines 158-176). -/
def objectToTable (fields : JFields) : Str :=
  "\n      <table class=\"json-table\">\n        <thead>\n          <tr><th>Key</th><th>Value</th></tr>\n        </thead>\n        <tbody>\n          ".data ++
    objectRows fields ++
    "\n        </tbody>\n      </table>\n    ".data

/-- Model of `JsonConverter.jsonToTable` (jsonConverter.js lines 98-106). -/
def jsonToTable : Json → Str
  | .arr items => arrayToTable items
  | .obj fields => objectToTable fields
  | v =>
      "<div class=\"json-simple-value\">".data ++ jsonToStructured v 0 ++
        "</div>".data

/-- Model of `JsonConverter.jsonToRaw` (jsonConverter.js lines 185-188). -/
def jsonToRaw (data : Json) : Str :=
  "<pre class=\"json-raw\"><code>".data ++ escapeHtml (stringify data) ++
    "</code></pre>".data

/-- Whether `pat` occurs at the start of `s`. -/
def startsWith : Str → Str → Bool
  | [], _ => true
  | _ :: _, [] => false
  | p :: ps, c :: cs => p = c && startsWith ps cs

/-- Whether `pat` occurs as a contiguous substring of `s`. -/
def hasSubstr (pat s : Str) : Bool :=
  match s with
  | [] => startsWith pat []
  | _ :: cs => startsWith pat s || hasSubstr pat cs

/-! ### Spec-side definitions for the table mode (claim C2)

These follow the spec's words, not the source, and are compared with the
source-derived `arrayToTable` by the refinement theorem. -/

/-- Union of key lists preserving first-seen order, as the spec words it:
"compute the union of all keys across all elements (preserving first-seen
order)". -/
def specUnion (keyss : List (List Str)) : List Str :=
  keyss.foldl (fun acc ks => acc ++ ks.filter (fun k => !decide (k ∈ acc))) []

/-- One table row per element, as the spec words it: one cell per column key,
a missing key rendering an empty cell. -/
def specRows (keys : List Str) : List Json → Str
  | [] => []
  | item :: rest =>
      "<tr>".data ++ tableRowCells item keys ++ "</tr>".data ++ specRows keys rest

/-- The table the spec describes for an array of objects: one column per key
of the first-seen union, one row per element. -/
def specObjectsTable (items : List Json) : Str :=
  let keys := specUnion (items.map itemKeys)
  "\n        <table class=\"json-table\">\n          <thead>\n            <tr>".data ++
    headerCells keys ++
    "</tr>\n          </thead>\n          <tbody>\n            ".data ++
    specRows keys items ++
    "\n          </tbody>\n        </table>\n      ".data

/-- The Alice/Bob example array of the spec:
`[{"name":"Alice","age":30},{"name":"Bob"}]`. -/
def aliceBob : JList :=
  .cons (.obj (.cons "name".data (.str "Alice".data) (.cons "age".data (.num 30) .nil)))
    (.cons (.obj (.cons "name".data (.str "Bob".data) .nil)) .nil)

/-! ### Lemmas for claim C2 -/

/-- Folding JavaScript `Set.add` over a duplicate-free key list appends
exactly the not-yet-seen keys, in order. -/
theorem foldl_setAdd_eq : ∀ (ks : List Str) (acc : List Str), ks.Nodup →
    List.foldl setAdd acc ks = acc ++ ks.filter (fun k => !decide (k ∈ acc))
  | [], acc, _ => by simp
  | k :: ks, acc, hnd => by
    rw [List.nodup_cons] at hnd
    obtain ⟨hk, hnd2⟩ := hnd
    rw [List.foldl_cons, foldl_setAdd_eq ks _ hnd2, List.filter_cons]
    unfold setAdd
    by_cases hmem : k ∈ acc
    · simp [hmem]
    · have hfilter : ks.filter (fun x => !decide (x ∈ acc) && !decide (x = k)) =
          ks.filter (fun x => !decide (x ∈ acc)) := by
        apply List.filter_congr
        intro x hx
        have hxk : x ≠ k := fun h => hk (h ▸ hx)
        simp [hxk]
      simp [hmem, hfilter]

/-- The `allKeys` accumulation of the source equals the spec's first-seen
union, for elements with duplicate-free key lists. -/
theorem collectKeys_eq_specUnion : ∀ (items : JList) (acc : List Str),
    (∀ j ∈ items.toList, (itemKeys j).Nodup) →
    collectKeys items acc =
      (items.toList.map itemKeys).foldl
        (fun acc ks => acc ++ ks.filter (fun k => !decide (k ∈ acc))) acc
  | .nil, _, _ => rfl
  | .cons x xs, acc, hnd => by
    have hx : (itemKeys x).Nodup := hnd x (by simp [JList.toList])
    have hxs : ∀ j ∈ xs.toList, (itemKeys j).Nodup :=
      fun j hj => hnd j (by simp [JList.toList, hj])
    simp only [collectKeys, JList.toList, List.map_cons, List.foldl_cons]
    rw [collectKeys_eq_specUnion xs _ hxs, foldl_setAdd_eq _ _ hx]

/-- Source data rows coincide with the spec's per-element rows. -/
theorem dataRows_eq_specRows (keys : List Str) :
    ∀ items : JList, dataRows keys items = specRows keys items.toList
  | .nil => rfl
  | .cons x xs => by
      simp only [dataRows, JList.toList, specRows]
      rw [dataRows_eq_specRows keys xs]

/--
Claim C2: for every JSON input whose root is a non-empty array in which every
element is a non-null, non-array object, table display mode produces a table
whose columns are the union of all keys across all elements in first-seen
order, with one row per element, and an element lacking a key rendering an
empty cell in that column — established as a refinement: the source's
`arrayToTable` output equals the table built from the spec's words.  The
duplicate-free-keys hypothesis reflects that `JSON.parse` objects have unique
keys.  The conjuncts also instantiate the spec's example
`[{"name":"Alice","age":30},{"name":"Bob"}]`: the columns are `name`, `age`
in first-seen order and Bob's missing `age` renders the empty cell
`<td></td>`.
-/
theorem C2_table_union_first_seen :
    (∀ items : JList, items ≠ .nil → allPlainObjects items = true →
      (∀ j ∈ items.toList, (itemKeys j).Nodup) →
      jsonToTable (.arr items) = specObjectsTable items.toList) ∧
    collectKeys aliceBob [] = ["name".data, "age".data] ∧
    tableCell (.obj (.cons "name".data (.str "Bob".data) .nil)) "age".data =
      "<td></td>".data ∧
    hasSubstr "<td></td>".data (jsonToTable (.arr aliceBob)) = true := by
  refine ⟨?_, by decide, by decide, by decide⟩
  intro items hne hall hnd
  have : jsonToTable (.arr items) = arrayToTable items := rfl
  rw [this]
  unfold arrayToTable specObjectsTable
  match items, hne with
  | .cons x xs, _ =>
    simp only [hall, if_pos]
    rw [collectKeys_eq_specUnion _ _ hnd, dataRows_eq_specRows]
    rfl

/--
Witness for claim C2: the refinement theorem applied to the spec's concrete
Alice/Bob example, with every hypothesis discharged there.
-/
theorem C2_table_union_first_seen_witness :
    jsonToTable (.arr aliceBob) = specObjectsTable aliceBob.toList :=
  C2_table_union_first_seen.1 aliceBob (fun h => JList.noConfusion h)
    (by decide) (by decide)

/--
Claim C1 (code bug): the spec requires every raw `&`, `<`, `>`, `"`, `'` in
user-supplied string content to appear HTML-entity-escaped in the produced
HTML, including string values nested inside object/array cells of the JSON
table rendering mode.  The code violates this at exactly that spot:
`formatTableCell` inserts `JSON.stringify(value, null, 2)` for nested
objects/arrays without calling `escapeHtml` (jsonConverter.js line 180), so
for the failing input `[{"a":{"b":"<i>&"}}]` in table mode the raw characters
`<`, `>` and `&` of the string value reach the output literally.  The
conjuncts evaluate the code at the failing input: the nested cell equals the
unescaped serialization, the table output contains the raw string `"<i>&"`
verbatim, and the escaped form is nowhere in the cell.
-/
theorem C1_nested_table_cell_unescaped :
    formatTableCell (.obj (.cons "b".data (.str "<i>&".data) .nil)) =
      "<pre class=\"json-nested\">\x7b\n  \"b\": \"<i>&\"\n\x7d</pre>".data ∧
    hasSubstr "\"b\": \"<i>&\"".data
      (jsonToTable (.arr (.cons (.obj (.cons "a".data
        (.obj (.cons "b".data (.str "<i>&".data) .nil)) .nil)) .nil))) = true ∧
    hasSubstr (escapeHtml "<i>&".data)
      (formatTableCell (.obj (.cons "b".data (.str "<i>&".data) .nil))) = false := by
  refine ⟨rfl, by decide, by decide⟩

/-! ### Title resolution of the JSON converter (claim C3) -/

/-- JavaScript truthiness of a parsed JSON value, as tested by `||`. -/
def jsTruthy : Json → Bool
  | .null => false
  | .bool b => b
  | .num n => !decide (n = 0)
  | .str s => !s.isEmpty
  | .arr _ => true
  | .obj _ => true

/-- Model of the member access `data.title` on the parsed value (jsonConverter.js
line 14): accessing a property of `null` throws a TypeError; objects yield the
field (or `undefined`, here `none`); arrays and primitives have no own `title`
property and yield `undefined`. -/
def titleAccess : Json → Except Str (Option Json)
  | .null => .error "TypeError".data
  | .obj fs => .ok (fs.lookup "title".data)
  | _ => .ok none

/-- Truthiness of the `options.title` operand (`undefined` or an empty string
are falsy). -/
def optTruthy : Option Str → Bool
  | some (_ :: _) => true
  | _ => false

/-- Model of `const title = options.title || data.title || ''` (jsonConverter.js
line 14), with JavaScript short-circuiting: the member access on `data` is
evaluated only when the explicit title is falsy. -/
def resolveJsonTitle (optTitle : Option Str) (data : Json) : Except Str Json :=
  match optTitle with
  | some (c :: cs) => .ok (.str (c :: cs))
  | _ =>
    match titleAccess data with
    | .error e => .error e
    | .ok (some v) => if jsTruthy v then .ok v else .ok (.str [])
    | .ok none => .ok (.str [])

/-- Success test for the resolution result. -/
def resolveOk : Except Str Json → Bool
  | .ok _ => true
  | .error _ => false

/-- The amended fallback: a truthy root `title` field, else the empty string
(total on non-null roots). -/
def fieldTitleOrEmpty : Json → Json
  | .obj fs =>
      match fs.lookup "title".data with
      | some v => if jsTruthy v then v else .str []
      | none => .str []
  | _ => .str []

/--
Claim C3 (counterexample): the claim asserts that title resolution never fails
for any valid JSON root value, explicitly including `null` — but on the root
value `null` with no explicit option title, `options.title || data.title`
evaluates `data.title` on `null` and throws a TypeError, so the conversion
fails instead of resolving to the empty string.
-/
theorem C3_null_root_title_throws :
    resolveJsonTitle none Json.null = .error "TypeError".data ∧
    resolveOk (resolveJsonTitle none Json.null) = false := ⟨rfl, rfl⟩

/--
Claim C3 (amended): for every syntactically valid JSON input, a non-empty
explicit option title wins; otherwise, for every root value other than `null`,
resolution yields a truthy root `title` field if the root is an object having
one, else the empty string, and never fails; resolution fails exactly when the
root is `null` and no non-empty explicit title is given (accessing `.title`
on `null` throws).  Falsy values (empty explicit title; a present-but-falsy
`title` field) fall through to the next step, as JavaScript `||` evaluates
them.
-/
theorem C3_title_resolution_amended :
    (∀ (t : Str) (d : Json), optTruthy (some t) = true →
        resolveJsonTitle (some t) d = .ok (.str t)) ∧
    (∀ (opt : Option Str) (d : Json), optTruthy opt = false → d ≠ .null →
        resolveJsonTitle opt d = .ok (fieldTitleOrEmpty d)) ∧
    (∀ (opt : Option Str) (d : Json),
        resolveOk (resolveJsonTitle opt d) = false ↔
          optTruthy opt = false ∧ d = .null) := by
  refine ⟨?_, ?_, ?_⟩
  · intro t d ht
    match t, ht with
    | c :: cs, _ => rfl
  · intro opt d hopt hd
    have hmatch : resolveJsonTitle opt d =
        (match titleAccess d with
         | .error e => .error e
         | .ok (some v) => if jsTruthy v then .ok v else .ok (.str [])
         | .ok none => .ok (.str [])) := by
      match opt, hopt with
      | none, _ => rfl
      | some [], _ => rfl
    rw [hmatch]
    match d, hd with
    | .bool b, _ => rfl
    | .num n, _ => rfl
    | .str s, _ => rfl
    | .arr l, _ => rfl
    | .obj fs, _ =>
      simp only [titleAccess, fieldTitleOrEmpty]
      cases hl : JFields.lookup fs "title".data with
      | none => simp
      | some v => by_cases hv : jsTruthy v = true <;> simp [hv]
  · intro opt d
    constructor
    · intro h
      match opt with
      | some (c :: cs) => exact absurd h (by simp [resolveJsonTitle, resolveOk])
      | none =>
        refine ⟨rfl, ?_⟩
        match d with
        | .null => rfl
        | .bool b => exact absurd h (by simp [resolveJsonTitle, titleAccess, resolveOk])
        | .num n => exact absurd h (by simp [resolveJsonTitle, titleAccess, resolveOk])
        | .str s => exact absurd h (by simp [resolveJsonTitle, titleAccess, resolveOk])
        | .arr l => exact absurd h (by simp [resolveJsonTitle, titleAccess, resolveOk])
        | .obj fs =>
          exfalso
          revert h
          simp only [resolveJsonTitle, titleAccess, resolveOk]
          match fs.lookup "title".data with
          | some v =>
            by_cases hv : jsTruthy v = true
            · simp [hv]
            · simp [hv]
          | none => simp
      | some [] =>
        refine ⟨rfl, ?_⟩
        match d with
        | .null => rfl
        | .bool b => exact absurd h (by simp [resolveJsonTitle, titleAccess, resolveOk])
        | .num n => exact absurd h (by simp [resolveJsonTitle, titleAccess, resolveOk])
        | .str s => exact absurd h (by simp [resolveJsonTitle, titleAccess, resolveOk])
        | .arr l => exact absurd h (by simp [resolveJsonTitle, titleAccess, resolveOk])
        | .obj fs =>
          exfalso
          revert h
          simp only [resolveJsonTitle, titleAccess, resolveOk]
          match fs.lookup "title".data with
          | some v =>
            by_cases hv : jsTruthy v = true
            · simp [hv]
            · simp [hv]
          | none => simp
    · rintro ⟨hopt, rfl⟩
      match opt, hopt with
      | none, _ => rfl
      | some [], _ => rfl

/--
Witness for claim C3 (amended): with no explicit title and the object root
`{"title":"Foo"}`, every hypothesis discharges and resolution yields `Foo`;
and the failure characterization instantiated at the `null` root.
-/
theorem C3_title_resolution_amended_witness :
    resolveJsonTitle none (.obj (.cons "title".data (.str "Foo".data) .nil)) =
      .ok (.str "Foo".data) ∧
    (resolveOk (resolveJsonTitle none Json.null) = false ↔
      optTruthy none = false ∧ Json.null = Json.null) :=
  ⟨C3_title_resolution_amended.2.1 none
      (.obj (.cons "title".data (.str "Foo".data) .nil)) rfl
      (fun h => Json.noConfusion h),
    C3_title_resolution_amended.2.2 none Json.null⟩

/-! ### Text converter paragraphs (claim C10)

Model of `TextConverter.convert` (textConverter.js lines 4-23): escape, split
on blank lines with `/\n\s*\n/`, drop whitespace-only pieces with
`.filter(p => p.trim())`, wrap each piece in `<p>...</p>` with inner newlines
replaced by `<br>`, and join with `'\n'`. -/

/-- ASCII model of the JavaScript `\s` character class / `String.trim`. -/
def isJsWs (c : Char) : Bool :=
  c = ' ' || c = '\t' || c = '\n' || c = '\r' || c = '\x0b' || c = '\x0c'

/-- JavaScript `String.prototype.trim`: whitespace stripped from both ends. -/
def jsTrim (s : Str) : Str :=
  ((s.dropWhile isJsWs).reverse.dropWhile isJsWs).reverse

/-- Index of the last `'\n'` in a list, if any (the greedy backtracking point
of the `\s*` in the separator regex `/\n\s*\n/`). -/
def lastNl : Str → Option Nat
  | [] => none
  | c :: cs =>
      match lastNl cs with
      | some i => some (i + 1)
      | none => if c = '\n' then some 0 else none

/-- Fuelled splitter for `escapedText.split(/\n\s*\n/)`: a separator starts at
a literal `'\n'` and greedily extends through the following whitespace run up
to (and including) the last `'\n'` inside it. -/
def splitParasGo : Nat → Str → Str → List Str
  | 0, _, acc => [acc.reverse]
  | _ + 1, [], acc => [acc.reverse]
  | fuel + 1, c :: cs, acc =>
      if c = '\n' then
        match lastNl (cs.takeWhile isJsWs) with
        | some i => acc.reverse :: splitParasGo fuel (cs.drop (i + 1)) []
        | none => splitParasGo fuel cs (c :: acc)
      else splitParasGo fuel cs (c :: acc)

/-- The pieces of `text.split(/\n\s*\n/)`. -/
def splitParas (s : Str) : List Str := splitParasGo (s.length + 1) s []

/-- The kept paragraphs: `.filter(p => p.trim())` on the split pieces of the
escaped text. -/
def textParagraphs (text : Str) : List Str :=
  (splitParas (escapeHtml text)).filter (fun p => !(jsTrim p).isEmpty)

/-- Replacement of single newlines by `<br>`: `p.replace(/\n/g, '<br>')`. -/
def brReplace (p : Str) : Str :=
  concatMap (fun c => if c = '\n' then "<br>".data else [c]) p

/-- One paragraph element of the text converter. -/
def wrapPara (p : Str) : Str := "<p>".data ++ brReplace p ++ "</p>".data

/-- The `.join('\n')` of the mapped pieces. -/
def joinNl : List Str → Str
  | [] => []
  | [p] => p
  | p :: q :: rest => p ++ '\n' :: joinNl (q :: rest)

/-- The HTML fragment the text converter substitutes for `{{content}}`. -/
def textContentHtml (text : Str) : Str :=
  joinNl ((textParagraphs text).map wrapPara)

/--
Claim C10: for every input to the text converter, paragraphs whose content is
empty or whitespace-only are dropped — the produced fragment is exactly the
wrap of a list of paragraph bodies each of which has non-empty trim, so no
`<p>` element with empty or whitespace-only content appears, regardless of
how many consecutive blank lines the input contains.  The closed conjuncts
evaluate the converter on inputs with runs of blank lines.
-/
theorem C10_blank_paragraphs_dropped :
    (∀ text : Str, ∃ ps : List Str,
      textContentHtml text = joinNl (ps.map wrapPara) ∧
      ∀ p ∈ ps, jsTrim p ≠ []) ∧
    textContentHtml "a\n\n\n \n\nb".data = "<p>a</p>\n<p>b</p>".data ∧
    textContentHtml "\n\n  \n\n".data = [] ∧
    textContentHtml "one\n\ntwo\nthree".data =
      "<p>one</p>\n<p>two<br>three</p>".data := by
  refine ⟨?_, by decide, by decide, by decide⟩
  intro text
  refine ⟨textParagraphs text, rfl, ?_⟩
  intro p hp
  have := List.of_mem_filter hp
  simpa [List.isEmpty_iff] using this

/-! ### Conversion orchestrator (claims C7 and C8)

Model of `PDFGenerationEngine` (src/index.js).  The converter map and the PDF
generator are the engine's injected collaborators; `convertToPDF` is
parameterized over their behaviour exactly as the object holds them in
fields, so the theorems quantify over every converter/renderer behaviour. -/

/-- Request options as the raw JavaScript object: an association list. -/
abbrev OptionsL := List (Str × Json)

/-- First-match lookup in an options object. -/
def lookupOpt (options : OptionsL) (key : Str) : Option Json :=
  match options with
  | [] => none
  | (k, v) :: rest => if k = key then some v else lookupOpt rest key

/-- Rest-spread `const { format, ...pdfOptions } = options`: the options
object without its `format` key. -/
def stripFormat (options : OptionsL) : OptionsL :=
  options.filter (fun kv => !decide (kv.1 = "format".data))

/-- PDF bytes, opaque to the conversion core. -/
abbrev ByteBuf := List Nat

/-- A converter behaviour: content and options to HTML, or a thrown message. -/
abbrev ConverterFun := Str → OptionsL → Except Str Str

/-- A renderer behaviour: HTML and PDF options to bytes, or a thrown message. -/
abbrev RenderFun := Str → OptionsL → Except Str ByteBuf

/-- The constructor's converter table `{ text, html, json, markdown }`
(src/index.js lines 83-88), with the four entries' behaviours injected. -/
def mkConverters (ct ch cj cm : ConverterFun) : Str → Option ConverterFun :=
  fun type =>
    if type = "text".data then some ct
    else if type = "html".data then some ch
    else if type = "json".data then some cj
    else if type = "markdown".data then some cm
    else none

/-- The four supported type names. -/
def stdConverterNames : List Str :=
  ["text".data, "html".data, "json".data, "markdown".data]

/-- Model of `PDFGenerationEngine.convertToPDF` (src/index.js lines 92-113):
unknown type throws `Unsupported content type`, the converter runs on the
full options, the renderer runs on the options without `format`, and the
surrounding try/catch wraps any failure into
`PDF generation failed: <original message>`. -/
def convertToPDF (converters : Str → Option ConverterFun) (render : RenderFun)
    (content : Str) (type : Str) (options : OptionsL) : Except Str ByteBuf :=
  match converters type with
  | none => .error ("PDF generation failed: Unsupported content type: ".data ++ type)
  | some conv =>
    match conv content options with
    | .error m => .error ("PDF generation failed: ".data ++ m)
    | .ok html =>
      match render html (stripFormat options) with
      | .error m => .error ("PDF generation failed: ".data ++ m)
      | .ok buf => .ok buf

/--
Claim C7: for every convert call whose resolved type is not among
{text, html, json, markdown}, the orchestrator fails with the
unsupported-type error and no converter is invoked (the result is the same
for every choice of converter behaviours); and every failure arising from
conversion or rendering is wrapped into the single
`PDF generation failed: <original message>` error carrying the originating
message, with no partial output — a call either throws or returns the
renderer's full buffer.
-/
theorem C7_orchestrator_error_wrapping :
    ∀ (ct ch cj cm : ConverterFun) (render : RenderFun)
      (content type : Str) (options : OptionsL),
      (type ∉ stdConverterNames →
        convertToPDF (mkConverters ct ch cj cm) render content type options =
          .error ("PDF generation failed: Unsupported content type: ".data ++ type)) ∧
      (∀ conv : ConverterFun, mkConverters ct ch cj cm type = some conv →
        (∀ m : Str, conv content options = .error m →
          convertToPDF (mkConverters ct ch cj cm) render content type options =
            .error ("PDF generation failed: ".data ++ m)) ∧
        (∀ (html : Str) (m : Str), conv content options = .ok html →
          render html (stripFormat options) = .error m →
          convertToPDF (mkConverters ct ch cj cm) render content type options =
            .error ("PDF generation failed: ".data ++ m)) ∧
        (∀ (html : Str) (buf : ByteBuf), conv content options = .ok html →
          render html (stripFormat options) = .ok buf →
          convertToPDF (mkConverters ct ch cj cm) render content type options =
            .ok buf)) := by
  intro ct ch cj cm render content type options
  constructor
  · intro hnot
    have hnone : mkConverters ct ch cj cm type = none := by
      unfold mkConverters
      simp only [stdConverterNames, List.mem_cons, List.not_mem_nil, or_false,
        not_or] at hnot
      obtain ⟨h1, h2, h3, h4⟩ := hnot
      simp [h1, h2, h3, h4]
    unfold convertToPDF
    rw [hnone]
  · intro conv hconv
    refine ⟨?_, ?_, ?_⟩
    · intro m hm
      unfold convertToPDF
      simp only [hconv, hm]
    · intro html m hh hm
      unfold convertToPDF
      simp only [hconv, hh, hm]
    · intro html buf hh hb
      unfold convertToPDF
      simp only [hconv, hh, hb]

/-- A converter behaviour that always succeeds (witness instrumentation). -/
def okConverter : ConverterFun := fun _ _ => .ok "H".data

/-- A converter behaviour that always throws (witness instrumentation). -/
def failConverter : ConverterFun := fun _ _ => .error "boom".data

/-- A renderer behaviour that always succeeds (witness instrumentation). -/
def okRender : RenderFun := fun _ _ => .ok [37, 80, 68, 70]

/--
Witness for claim C7: the theorem applied at the unsupported type `csv`
(its hypothesis discharged by evaluation), and at a converter failure for the
supported type `json`.
-/
theorem C7_orchestrator_error_wrapping_witness :
    convertToPDF (mkConverters okConverter okConverter okConverter okConverter)
        okRender "x".data "csv".data [] =
      .error ("PDF generation failed: Unsupported content type: ".data ++ "csv".data) ∧
    convertToPDF (mkConverters okConverter okConverter failConverter okConverter)
        okRender "x".data "json".data [] =
      .error ("PDF generation failed: ".data ++ "boom".data) :=
  ⟨(C7_orchestrator_error_wrapping okConverter okConverter okConverter okConverter
      okRender "x".data "csv".data []).1 (by decide),
    ((C7_orchestrator_error_wrapping okConverter okConverter failConverter okConverter
      okRender "x".data "json".data []).2 failConverter rfl).1 "boom".data rfl⟩

/-- A batch entry `{ input, output, type }` (src/index.js line 139-141). -/
structure BatchFile where
  input : Str
  output : Str
  type : Str

/-- A batch result entry: `{ success: true, file }` or
`{ success: false, file, error }`. -/
inductive BatchResult where
  | ok (file : Str)
  | fail (file : Str) (error : Str)
deriving DecidableEq, Repr

/-- Model of `PDFGenerationEngine.batchConvert` (src/index.js lines 136-149):
a strictly sequential loop, each item's `convertFile` call guarded by its own
try/catch; the whole call always returns a plain result list (never throws). -/
def batchConvert (convertFile : BatchFile → Except Str Str) :
    List BatchFile → List BatchResult
  | [] => []
  | f :: fs =>
    match convertFile f with
    | .ok written => .ok written :: batchConvert convertFile fs
    | .error e => .fail f.input e :: batchConvert convertFile fs

/-- The outputs actually written by a batch: the successful items' files. -/
def writtenFiles (results : List BatchResult) : List Str :=
  results.foldr (fun r acc => match r with | .ok f => f :: acc | .fail _ _ => acc) []

/-- Count of failed entries in a batch result. -/
def failedCount (results : List BatchResult) : Nat :=
  results.foldr (fun r acc => match r with | .ok _ => acc | .fail _ _ => acc + 1) 0

/-- The per-item outcome of one batch entry. -/
def itemOutcome (convertFile : BatchFile → Except Str Str) (f : BatchFile) :
    BatchResult :=
  match convertFile f with
  | .ok written => .ok written
  | .error e => .fail f.input e

/-- Per-item independence: batch processing is the map of the per-item
outcome, so one item's failure cannot abort or disturb the others. -/
theorem batchConvert_eq_map (convertFile : BatchFile → Except Str Str) :
    ∀ files : List BatchFile,
      batchConvert convertFile files = files.map (itemOutcome convertFile)
  | [] => rfl
  | f :: fs => by
    simp only [batchConvert, itemOutcome, List.map_cons]
    cases convertFile f <;>
      simp [batchConvert_eq_map convertFile fs]

/-- The behaviour of `convertFile` in the witness scenario: the item with
input `bad` throws, the others write their output paths. -/
def scenarioConvert : BatchFile → Except Str Str :=
  fun f => if f.input = "bad".data then .error "File conversion failed".data
           else .ok f.output

/--
Claim C8: for every input list and every per-item behaviour, `batchConvert`
returns exactly one result entry per input item (it never fails as a whole —
its type is a plain list), the entries are the per-item outcomes in order, so
a failure on one item does not abort the remaining items; and on the spec's
scenario of one bad item between two good ones it returns three entries with
exactly one marked failed and the two good outputs written.
-/
theorem C8_batch_per_item_isolation :
    (∀ (convertFile : BatchFile → Except Str Str) (files : List BatchFile),
      (batchConvert convertFile files).length = files.length ∧
      batchConvert convertFile files = files.map (itemOutcome convertFile)) ∧
    batchConvert scenarioConvert
        [⟨"g1".data, "o1.pdf".data, "text".data⟩,
         ⟨"bad".data, "o2.pdf".data, "text".data⟩,
         ⟨"g2".data, "o3.pdf".data, "text".data⟩] =
      [.ok "o1.pdf".data,
       .fail "bad".data "File conversion failed".data,
       .ok "o3.pdf".data] ∧
    failedCount (batchConvert scenarioConvert
        [⟨"g1".data, "o1.pdf".data, "text".data⟩,
         ⟨"bad".data, "o2.pdf".data, "text".data⟩,
         ⟨"g2".data, "o3.pdf".data, "text".data⟩]) = 1 ∧
    writtenFiles (batchConvert scenarioConvert
        [⟨"g1".data, "o1.pdf".data, "text".data⟩,
         ⟨"bad".data, "o2.pdf".data, "text".data⟩,
         ⟨"g2".data, "o3.pdf".data, "text".data⟩]) =
      ["o1.pdf".data, "o3.pdf".data] := by
  refine ⟨?_, by decide, by decide, by decide⟩
  intro convertFile files
  refine ⟨?_, batchConvert_eq_map convertFile files⟩
  rw [batchConvert_eq_map convertFile files, List.length_map]

/-! ### Content-type detector (claim C5)

Model of `detectContentType` (helpers.js lines 118-158).  The `JSON.parse`
validity probe is modelled by a fuelled checker of the full JSON grammar
(including fraction/exponent numbers, which the value embedding does not
carry — the detector only needs syntactic validity). -/

/-- JSON insignificant whitespace characters (space, tab, line feed,
carriage return). -/
def jsonWsChar (c : Char) : Bool :=
  c = ' ' || c = '\t' || c = '\n' || c = '\r'

/-- Skipping of JSON insignificant whitespace. -/
def skipJsonWs (s : Str) : Str := s.dropWhile jsonWsChar

/-- Hexadecimal digit test for the `\uXXXX` escape. -/
def isHexDig (c : Char) : Bool :=
  c.isDigit || ('a' <= c && c <= 'f') || ('A' <= c && c <= 'F')

/-- Scanner for the remainder of a JSON string literal after the opening
quote: ordinary characters above `0x1F`, the eight escapes and `\uXXXX`. -/
def chkStringRest : Str → Option Str
  | [] => none
  | '"' :: r => some r
  | '\\' :: e :: r =>
      if e = '"' || e = '\\' || e = '/' || e = 'b' || e = 'f' || e = 'n' ||
          e = 'r' || e = 't' then chkStringRest r
      else if e = 'u' then
        match r with
        | h1 :: h2 :: h3 :: h4 :: r2 =>
            if isHexDig h1 && isHexDig h2 && isHexDig h3 && isHexDig h4
            then chkStringRest r2 else none
        | _ => none
      else none
  | c :: r => if c.toNat < 0x20 then none else chkStringRest r

/-- Exponent part of a JSON number: `[eE][+-]?[0-9]+` or nothing. -/
def chkExp : Str → Option Str
  | 'e' :: '+' :: c :: r =>
      if c.isDigit then some (r.dropWhile Char.isDigit) else none
  | 'e' :: '-' :: c :: r =>
      if c.isDigit then some (r.dropWhile Char.isDigit) else none
  | 'e' :: c :: r =>
      if c.isDigit then some (r.dropWhile Char.isDigit) else none
  | 'E' :: '+' :: c :: r =>
      if c.isDigit then some (r.dropWhile Char.isDigit) else none
  | 'E' :: '-' :: c :: r =>
      if c.isDigit then some (r.dropWhile Char.isDigit) else none
  | 'E' :: c :: r =>
      if c.isDigit then some (r.dropWhile Char.isDigit) else none
  | s => some s

/-- Fraction and exponent parts of a JSON number. -/
def chkFracExp : Str → Option Str
  | '.' :: c :: r =>
      if c.isDigit then chkExp (r.dropWhile Char.isDigit) else none
  | '.' :: [] => none
  | s => chkExp s

/-- A JSON number: `-?(0|[1-9][0-9]*)(\.[0-9]+)?([eE][+-]?[0-9]+)?`. -/
def chkNumber (s : Str) : Option Str :=
  let s1 := match s with | '-' :: r => r | _ => s
  match s1 with
  | '0' :: r => chkFracExp r
  | c :: r => if c.isDigit then chkFracExp (r.dropWhile Char.isDigit) else none
  | [] => none

mutual
/-- Fuelled checker for one JSON value, returning the unconsumed remainder. -/
def chkValue : Nat → Str → Option Str
  | 0, _ => none
  | fuel + 1, s =>
    match skipJsonWs s with
    | 'n' :: 'u' :: 'l' :: 'l' :: r => some r
    | 't' :: 'r' :: 'u' :: 'e' :: r => some r
    | 'f' :: 'a' :: 'l' :: 's' :: 'e' :: r => some r
    | '"' :: r => chkStringRest r
    | '[' :: r =>
        (match skipJsonWs r with
         | ']' :: r2 => some r2
         | r2 => chkElems fuel r2)
    | '\x7b' :: r =>
        (match skipJsonWs r with
         | '\x7d' :: r2 => some r2
         | r2 => chkMembers fuel r2)
    | c :: r => if c = '-' || c.isDigit then chkNumber (c :: r) else none
    | [] => none

/-- Fuelled checker for the elements of a non-empty JSON array. -/
def chkElems : Nat → Str → Option Str
  | 0, _ => none
  | fuel + 1, s =>
    match chkValue fuel s with
    | none => none
    | some r =>
      match skipJsonWs r with
      | ',' :: r2 => chkElems fuel r2
      | ']' :: r2 => some r2
      | _ => none

/-- Fuelled checker for the members of a non-empty JSON object. -/
def chkMembers : Nat → Str → Option Str
  | 0, _ => none
  | fuel + 1, s =>
    match skipJsonWs s with
    | '"' :: r =>
      match chkStringRest r with
      | none => none
      | some r2 =>
        match skipJsonWs r2 with
        | ':' :: r3 =>
          match chkValue fuel r3 with
          | none => none
          | some r4 =>
            match skipJsonWs r4 with
            | ',' :: r5 => chkMembers fuel r5
            | '\x7d' :: r5 => some r5
            | _ => none
        | _ => none
    | _ => none
end

/-- Model of the `JSON.parse(trimmed)` validity probe: the whole input is one
JSON value (fuel `2·length + 2` covers the two fuel units a nesting character
can cost). -/
def jsonValid (s : Str) : Bool :=
  match chkValue (2 * s.length + 2) s with
  | some r => (skipJsonWs r).isEmpty
  | none => false

/-- The bracket-delimitation test of helpers.js lines 122-123. -/
def bracketDelimited (s : Str) : Bool :=
  match s with
  | [] => false
  | c :: _ =>
      (c = '\x7b' && s.getLast? = some '\x7d') ||
      (c = '[' && s.getLast? = some ']')

/-- ASCII letter (the `[a-z]` of the HTML tag pattern with the `i` flag). -/
def isAsciiLetter (c : Char) : Bool :=
  ('a' ≤ c && c ≤ 'z') || ('A' ≤ c && c ≤ 'Z')

/-- Whether the HTML tag pattern `<\/?[a-z][\s\S]*>` matches at the head of
`s`: a `<`, an optional `/`, a letter, and a `>` somewhere after. -/
def htmlTagHere : Str → Bool
  | '<' :: '/' :: c :: rest => isAsciiLetter c && rest.contains '>'
  | '<' :: c :: rest => isAsciiLetter c && rest.contains '>'
  | _ => false

/-- Whether the HTML tag pattern matches anywhere in `s`. -/
def htmlTagTest : Str → Bool
  | [] => false
  | s@(_ :: rest) => htmlTagHere s || htmlTagTest rest

/-- The HTML check of helpers.js lines 133-138: both angle brackets present
and the tag pattern matched. -/
def htmlCheck (s : Str) : Bool :=
  s.contains '<' && s.contains '>' && htmlTagTest s

/-- Lines of the input as the dot `.` of an unanchored JavaScript regex sees
them: segments between line terminators, which `.` never crosses. -/
def splitLines : Str → List Str
  | [] => [[]]
  | c :: cs =>
    match splitLines cs with
    | [] => [[c]]
    | l :: ls => if c = '\n' || c = '\r' then [] :: l :: ls else (c :: l) :: ls

/-- The `/^#{1,6}\s+/` heading pattern (string-anchored, no `m` flag). -/
def mdHeading (s : Str) : Bool :=
  let n := (s.takeWhile (fun c => c = '#')).length
  decide (1 ≤ n) && decide (n ≤ 6) &&
    (match s.drop n with | c :: _ => isJsWs c | [] => false)

/-- The `/^\*\s+/` unordered-list pattern. -/
def mdStar : Str → Bool
  | '*' :: c :: _ => isJsWs c
  | _ => false

/-- The `/^\d+\.\s+/` ordered-list pattern. -/
def mdOrdered (s : Str) : Bool :=
  let ds := s.takeWhile Char.isDigit
  !ds.isEmpty &&
    (match s.drop ds.length with
     | '.' :: c :: _ => isJsWs c
     | _ => false)

/-- A second `**` occurring in the remainder of a line. -/
def hasDoubleStar : Str → Bool
  | '*' :: '*' :: _ => true
  | _ :: r => hasDoubleStar r
  | [] => false

/-- The `/\*\*.*\*\*/` bold pattern within one line. -/
def segBold : Str → Bool
  | '*' :: '*' :: rest => hasDoubleStar rest
  | _ :: rest => segBold rest
  | [] => false

/-- The `/\*.*\*/` italic pattern within one line: a `*` with another `*`
after it. -/
def segItalic : Str → Bool
  | '*' :: rest => rest.contains '*' || segItalic rest
  | _ :: rest => segItalic rest
  | [] => false

/-- A `](` pair with a later `)` in the remainder of a line. -/
def closeBrkParen : Str → Bool
  | ']' :: '(' :: rest => rest.contains ')' || closeBrkParen ('(' :: rest)
  | _ :: rest => closeBrkParen rest
  | [] => false

/-- The `/\[.*\]\(.*\)/` link pattern within one line. -/
def segLink : Str → Bool
  | '[' :: rest => closeBrkParen rest || segLink rest
  | _ :: rest => segLink rest
  | [] => false

/-- The `/^>/` blockquote pattern. -/
def mdBlockquote : Str → Bool
  | '>' :: _ => true
  | _ => false

/-- The `markdownPatterns.some(pattern => pattern.test(trimmed))` disjunction
of helpers.js lines 141-152. -/
def markdownCheck (s : Str) : Bool :=
  mdHeading s || mdStar s || mdOrdered s ||
    (splitLines s).any segBold || (splitLines s).any segItalic ||
    (splitLines s).any segLink || hasSubstr "```".data s || mdBlockquote s

/-- The four detector verdicts. -/
inductive ContentType where
  | json
  | html
  | markdown
  | text
deriving DecidableEq, Repr

/-- Model of `detectContentType` (helpers.js lines 118-158): trim, then test
JSON, HTML, Markdown in priority order, defaulting to text. -/
def detectContentType (content : Str) : ContentType :=
  if bracketDelimited (jsTrim content) && jsonValid (jsTrim content) then .json
  else if htmlCheck (jsTrim content) then .html
  else if markdownCheck (jsTrim content) then .markdown
  else .text

/--
Claim C5: the detector returns exactly one of {json, html, markdown, text}
for every input and never fails; the checks apply in priority order, and
bracket-delimited but malformed JSON falls through to the later checks
rather than erroring (conjunct 2, plus the concrete malformed input
`{a:1}` which falls all the way to text); and the four spec scenarios hold:
`{"a":1}` is json, `<p>hi</p>` is html, `# Title\n\ntext` is markdown, and
`plain sentence.` is text.
-/
theorem C5_detector_priority_and_scenarios :
    (∀ s : Str,
      detectContentType s = .json ∨ detectContentType s = .html ∨
      detectContentType s = .markdown ∨ detectContentType s = .text) ∧
    (∀ s : Str,
      (bracketDelimited (jsTrim s) && jsonValid (jsTrim s)) = false →
      detectContentType s =
        (if htmlCheck (jsTrim s) then .html
         else if markdownCheck (jsTrim s) then .markdown
         else .text)) ∧
    detectContentType "\x7b\"a\":1\x7d".data = .json ∧
    detectContentType "<p>hi</p>".data = .html ∧
    detectContentType "# Title\n\ntext".data = .markdown ∧
    detectContentType "plain sentence.".data = .text ∧
    detectContentType "\x7ba:1\x7d".data = .text := by
  refine ⟨?_, ?_, by decide, by decide, by decide, by decide, by decide⟩
  · intro s
    unfold detectContentType
    split
    · exact Or.inl rfl
    · split
      · exact Or.inr (Or.inl rfl)
      · split
        · exact Or.inr (Or.inr (Or.inl rfl))
        · exact Or.inr (Or.inr (Or.inr rfl))
  · intro s h
    unfold detectContentType
    simp only [h, Bool.false_eq_true, if_false]

/--
Witness for claim C5: the fall-through component applied at the
bracket-delimited but malformed input `{a:1}`, its hypothesis discharged by
evaluation.
-/
theorem C5_detector_priority_and_scenarios_witness :
    detectContentType "\x7ba:1\x7d".data =
      (if htmlCheck (jsTrim "\x7ba:1\x7d".data) then ContentType.html
       else if markdownCheck (jsTrim "\x7ba:1\x7d".data) then ContentType.markdown
       else ContentType.text) :=
  C5_detector_priority_and_scenarios.2.1 "\x7ba:1\x7d".data (by decide)

/-! ### PDF option validation and the convert endpoint gate (claim C9)

Models of `validatePdfOptions` (helpers.js lines 160-180) and the validation
portion of `handleConvert` (app.js lines 69-93). -/

mutual
/-- JavaScript string conversion of a value interpolated into a template
literal (used for the `${options.format}` in the error message). -/
def jsToDisplay : Json → Str
  | .null => "null".data
  | .bool b => (cond b "true" "false").data
  | .num n => intChars n
  | .str s => s
  | .obj _ => "[object Object]".data
  | .arr l => displayElems l

/-- `Array.prototype.toString`: elements joined with commas, null elements
rendering empty. -/
def displayElems : JList → Str
  | .nil => []
  | .cons x .nil =>
      (match x with | .null => [] | _ => jsToDisplay x)
  | .cons x (.cons y ys) =>
      (match x with | .null => [] | _ => jsToDisplay x) ++
        ',' :: displayElems (.cons y ys)
end

/-- The valid page formats (helpers.js line 161). -/
def validFormats : List Str :=
  ["A4".data, "A3".data, "A5".data, "Legal".data, "Letter".data, "Tabloid".data]

/-- The valid margin keys (helpers.js line 169). -/
def marginKeyNames : List Str :=
  ["top".data, "right".data, "bottom".data, "left".data]

/-- `validFormats.includes(options.format)`: strict equality against the six
strings, false for non-strings. -/
def formatIncluded : Json → Bool
  | .str s => decide (s ∈ validFormats)
  | _ => false

/-- `typeof v === 'object'` (objects, arrays, and null). -/
def isObjectType : Json → Bool
  | .obj _ => true
  | .arr _ => true
  | .null => true
  | _ => false

/-- Index strings, the `Object.keys` of a JavaScript array. -/
def idxKeys : Nat → JList → List Str
  | _, .nil => []
  | i, .cons _ xs => natChars i :: idxKeys (i + 1) xs

/-- `Object.keys(options.margin)` for the values the truthy-object guard
admits. -/
def marginObjKeys : Json → List Str
  | .obj fs => fs.keys
  | .arr l => idxKeys 0 l
  | _ => []

/-- Model of `validatePdfOptions` (helpers.js lines 160-180): a structured
list of per-field messages, format error first, then one error per
unrecognized margin key. -/
def validatePdfOptions (options : OptionsL) : List Str :=
  (match lookupOpt options "format".data with
   | some v =>
       if jsTruthy v && !formatIncluded v then
         ["Invalid format: ".data ++ jsToDisplay v ++
           ". Valid formats: A4, A3, A5, Legal, Letter, Tabloid".data]
       else []
   | none => []) ++
  (match lookupOpt options "margin".data with
   | some m =>
       if jsTruthy m && isObjectType m then
         ((marginObjKeys m).filter (fun k => !decide (k ∈ marginKeyNames))).map
           (fun k => "Invalid margin key: ".data ++ k ++
             ". Valid keys: top, right, bottom, left".data)
       else []
   | none => [])

/-- The endpoint's responses, as far as the validation gate is concerned. -/
inductive ConvertResponse where
  | noContent
  | invalidOptions (error : Str) (details : List Str)
  | proceeded (contentType : Str) (options : OptionsL)
deriving Repr

/-- The detector verdict as the string the endpoint uses. -/
def strOfContentType : ContentType → Str
  | .json => "json".data
  | .html => "html".data
  | .markdown => "markdown".data
  | .text => "text".data

/-- Rest-spread `const { format, title, ...pdfOnlyOptions } = options`
(app.js line 81): the options without their `format` and `title` keys. -/
def stripFormatTitle (options : OptionsL) : OptionsL :=
  options.filter (fun kv =>
    !decide (kv.1 = "format".data) && !decide (kv.1 = "title".data))

/-- Model of the request-validation portion of `handleConvert` (app.js lines
69-93): missing/empty content is rejected; the content type is the explicit
type or the detector's verdict; `validatePdfOptions` runs on the options
without `format` and `title`; a non-empty error list yields the 400 response
with the per-field details, otherwise `convertToPDF` is invoked with the full
options. -/
def handleConvertGate (content : Option Str) (type : Option Str)
    (options : OptionsL) : ConvertResponse :=
  match content with
  | none => .noContent
  | some c =>
    if c.isEmpty then .noContent
    else
      let contentType :=
        match type with
        | some (t1 :: trest) => t1 :: trest
        | _ => strOfContentType (detectContentType c)
      let errors := validatePdfOptions (stripFormatTitle options)
      if errors.isEmpty then .proceeded contentType options
      else .invalidOptions "Invalid PDF options".data errors

/--
Claim C9 (counterexample): the claim says a request carrying the page-layout
format `B5` is rejected by validation before any converter is invoked — but
the endpoint strips the `format` key from the options before validating
(app.js line 81: `const { format, title, ...pdfOnlyOptions } = options`), so
the request `{content: "hi", options: {format: "B5"}}` passes validation and
proceeds to conversion.  The second conjunct shows `validatePdfOptions`
itself would flag `B5` had it been given the key, making the stripping the
exact cause.
-/
theorem C9_format_bypasses_endpoint_validation :
    handleConvertGate (some "hi".data) none [("format".data, .str "B5".data)] =
      .proceeded "text".data [("format".data, .str "B5".data)] ∧
    validatePdfOptions [("format".data, .str "B5".data)] ≠ [] := by
  constructor
  · rfl
  · intro h
    exact absurd h (by decide)

/--
Claim C9 (amended): margin validation behaves as claimed — for every request
with non-empty content whose stripped options fail validation (in particular
any with an unrecognized margin key), the endpoint rejects it with the
structured per-field message list before any converter or renderer is
invoked; but the `format` key never reaches the endpoint's validator (it is
stripped as a converter display option), so an out-of-range page format such
as `B5` is not rejected there — even though `validatePdfOptions` itself flags
every truthy non-member format value it is given, and flags every
unrecognized margin key.
-/
theorem C9_validation_amended :
    (∀ (c : Str) (type : Option Str) (options : OptionsL),
        c ≠ [] → validatePdfOptions (stripFormatTitle options) ≠ [] →
        handleConvertGate (some c) type options =
          .invalidOptions "Invalid PDF options".data
            (validatePdfOptions (stripFormatTitle options))) ∧
    (∀ options : OptionsL, lookupOpt (stripFormatTitle options) "format".data = none) ∧
    (∀ v : Json, jsTruthy v = true → formatIncluded v = false →
        validatePdfOptions [("format".data, v)] =
          ["Invalid format: ".data ++ jsToDisplay v ++
            ". Valid formats: A4, A3, A5, Legal, Letter, Tabloid".data]) ∧
    (∀ (k : Str) (v : Json), k ∉ marginKeyNames →
        ("Invalid margin key: ".data ++ k ++
            ". Valid keys: top, right, bottom, left".data) ∈
          validatePdfOptions [("margin".data, .obj (.cons k v .nil))]) := by
  refine ⟨?_, ?_, ?_, ?_⟩
  · intro c type options hc herr
    unfold handleConvertGate
    have hne : c.isEmpty = false := by
      cases c with
      | nil => exact absurd rfl hc
      | cons c1 cs => rfl
    have herrne : (validatePdfOptions (stripFormatTitle options)).isEmpty = false := by
      cases hv : validatePdfOptions (stripFormatTitle options) with
      | nil => exact absurd hv herr
      | cons e es => rfl
    simp only [hne, Bool.false_eq_true, if_false, herrne]
  · intro options
    induction options with
    | nil => rfl
    | cons kv rest ih =>
      obtain ⟨k, v⟩ := kv
      by_cases hk : k = "format".data
      · simpa [stripFormatTitle, hk] using ih
      · by_cases ht : k = "title".data
        · simpa [stripFormatTitle, ht] using ih
        · simpa [stripFormatTitle, hk, ht, lookupOpt] using ih
  · intro v hv hf
    unfold validatePdfOptions
    simp [lookupOpt, hv, hf]
  · intro k v hk
    unfold validatePdfOptions
    simp [lookupOpt, marginObjKeys, JFields.keys, hk, jsTruthy, isObjectType]

/--
Witness for claim C9 (amended): a request with the unrecognized margin key
`weird` is rejected with the structured per-field list; the validator applied
directly to `format: "B5"` produces the format error; `weird` is flagged as a
margin key.
-/
theorem C9_validation_amended_witness :
    handleConvertGate (some "hi".data) none
        [("margin".data, .obj (.cons "weird".data (.str "1cm".data) .nil))] =
      .invalidOptions "Invalid PDF options".data
        (validatePdfOptions (stripFormatTitle
          [("margin".data, .obj (.cons "weird".data (.str "1cm".data) .nil))])) ∧
    validatePdfOptions [("format".data, .str "B5".data)] =
      ["Invalid format: ".data ++ jsToDisplay (.str "B5".data) ++
        ". Valid formats: A4, A3, A5, Legal, Letter, Tabloid".data] ∧
    ("Invalid margin key: ".data ++ "weird".data ++
        ". Valid keys: top, right, bottom, left".data) ∈
      validatePdfOptions [("margin".data,
        .obj (.cons "weird".data (.str "1cm".data) .nil))] :=
  ⟨C9_validation_amended.1 "hi".data none
      [("margin".data, .obj (.cons "weird".data (.str "1cm".data) .nil))]
      (by decide) (by decide),
    C9_validation_amended.2.2.1 (.str "B5".data) rfl rfl,
    C9_validation_amended.2.2.2 "weird".data (.str "1cm".data) (by decide)⟩

/-! ### Markdown frontmatter extraction (claim C6)

Model of `MarkdownConverter.extractFrontmatter` (markdownConverter.js lines
90-119) and the title resolution of `convert` (line 76).  The regex
`/^---\s*\n([\s\S]*?)\n---\s*\n([\s\S]*)$/` is modelled with JavaScript
backtracking semantics: the greedy `\s*` after each `---` takes the longest
whitespace run whose next character is a newline (backing off until the
overall match succeeds), and the lazy group takes the first position where
the closing delimiter matches. -/

/-- Candidate lengths `k` such that the first `k` characters of `s` are
whitespace and `s` has a newline at index `k`, in decreasing order (the
backtracking order of a greedy `\s*` followed by `\n`). -/
def wsNlCandidates (s : Str) : List Nat :=
  ((List.range (s.takeWhile isJsWs).length).filter
    (fun k => (s.takeWhile isJsWs).get? k = some '\n')).reverse

/-- The closing delimiter `---\s*\n` (after its leading newline) matched at
the head of `cs`: the whitespace run the greedy `\s*` takes (longest valid)
and the remainder after the final newline. -/
def closeSplit : Str → Option (Str × Str)
  | '-' :: '-' :: '-' :: rest2 =>
      (match (wsNlCandidates rest2).head? with
       | some k => some (rest2.take k, rest2.drop (k + 1))
       | none => none)
  | _ => none

/-- Search for the lazy group's end: the first position where
`\n---\s*\n` matches, returning the group before it and the remainder after
it. -/
def findClose : Str → Option (Str × Str)
  | [] => none
  | c :: cs =>
      if c = '\n' then
        match closeSplit cs with
        | some (_, g2) => some ([], g2)
        | none =>
            match findClose cs with
            | some (g1, g2) => some (c :: g1, g2)
            | none => none
      else
        match findClose cs with
        | some (g1, g2) => some (c :: g1, g2)
        | none => none

/-- Backtracking over the opening `\s*` candidates, longest first. -/
def tryOpen : List Nat → Str → Option (Str × Str)
  | [], _ => none
  | k :: rest, r0 =>
      match findClose (r0.drop (k + 1)) with
      | some res => some res
      | none => tryOpen rest r0

/-- The full-match result of the frontmatter regex: the two capture groups,
or `none` when the regex does not match. -/
def fmMatch (content : Str) : Option (Str × Str) :=
  match content with
  | '-' :: '-' :: '-' :: r0 => tryOpen (wsNlCandidates r0) r0
  | _ => none

/-- Split on `'\n'` exactly (`frontmatterText.split('\n')`). -/
def splitOnNl : Str → List Str
  | [] => [[]]
  | c :: cs =>
    match splitOnNl cs with
    | [] => [[c]]
    | l :: ls => if c = '\n' then [] :: l :: ls else (c :: l) :: ls

/-- Index of the first `':'` (`line.indexOf(':')`), if any. -/
def colonIdx : Str → Option Nat
  | [] => none
  | c :: cs => if c = ':' then some 0 else (colonIdx cs).map (· + 1)

/-- The value cleanup `.replace(/^["']|["']$/g, '')`: one leading and one
trailing quote character (of either kind, independently) removed. -/
def stripEndQuotes (s : Str) : Str :=
  let s1 := match s with
    | c :: cs => if c = '"' || c = apos then cs else s
    | [] => []
  match s1.getLast? with
  | some c => if c = '"' || c = apos then s1.dropLast else s1
  | none => []

/-- JavaScript object assignment `metadata[key] = value`: overwrite in place
or append. -/
def upsert (m : List (Str × Str)) (k v : Str) : List (Str × Str) :=
  match m with
  | [] => [(k, v)]
  | (k2, v2) :: rest => if k2 = k then (k2, v) :: rest else (k2, v2) :: upsert rest k v

/-- The flat `key: value` parsing of the enclosed block (markdownConverter.js
lines 103-110): one pair per line, lines without a colon after position 0
ignored, key and value trimmed, surrounding quotes stripped from values. -/
def parseFmPairs (text : Str) : List (Str × Str) :=
  (splitOnNl text).foldl
    (fun m line =>
      match colonIdx line with
      | some ci =>
          if 0 < ci then
            upsert m (jsTrim (line.take ci))
              (stripEndQuotes (jsTrim (line.drop (ci + 1))))
          else m
      | none => m) []

/-- The extraction result `{ content, metadata }`. -/
structure Frontmatter where
  content : Str
  metadata : List (Str × Str)
deriving DecidableEq, Repr

/-- Model of `MarkdownConverter.extractFrontmatter`: on a regex match the
body is the second group and the metadata the parsed first group; otherwise
the whole input is the body and the metadata is empty. -/
def extractFrontmatter (content : Str) : Frontmatter :=
  match fmMatch content with
  | none => ⟨content, []⟩
  | some (g1, g2) => ⟨g2, parseFmPairs g1⟩

/-- First-match lookup in the metadata object. -/
def lookupMeta : List (Str × Str) → Str → Option Str
  | [], _ => none
  | (k, v) :: rest, key => if k = key then some v else lookupMeta rest key

/-- Back-off of the greedy `\s+` when the whole tail is whitespace: the
largest consumption `j ≥ 1` from which the group can start with a
non-terminator character, the group running to the line end. -/
def backOffWs (wsRun : Str) : Option Str :=
  (List.range wsRun.length).reverse.foldl
    (fun found j =>
      match found with
      | some t => some t
      | none =>
          if 1 ≤ j then
            match wsRun.drop j with
            | c :: rest =>
                if !(c = '\n' || c = '\r') then
                  some ((c :: rest).takeWhile (fun c => !(c = '\n' || c = '\r')))
                else none
            | [] => none
          else none)
    none

/-- Attempt of `/^#+\s+(.+)$/m` at one line-start position: a run of `#`,
at least one whitespace character (greedy, backing off so that the group can
start with a non-terminator), and the group running to the line end. -/
def titleAtLineStart (s : Str) : Option Str :=
  let hashes := s.takeWhile (fun c => c = '#')
  if hashes.isEmpty then none
  else
    let after := s.drop hashes.length
    let wsRun := after.takeWhile isJsWs
    if wsRun.isEmpty then none
    else
      match after.drop wsRun.length with
      | c :: rest =>
          some ((c :: rest).takeWhile (fun c => !(c = '\n' || c = '\r')))
      | [] => backOffWs wsRun

/-- Scan of the multiline regex over all line starts, leftmost first. -/
def extractTitleScan : Bool → Str → Option Str
  | _, [] => none
  | atStart, c :: cs =>
      if atStart then
        match titleAtLineStart (c :: cs) with
        | some t => some t
        | none => extractTitleScan (c = '\n' || c = '\r') cs
      else extractTitleScan (c = '\n' || c = '\r') cs

/-- Model of `MarkdownConverter.extractTitleFromContent` (lines 121-125). -/
def extractTitleFromContent (content : Str) : Option Str :=
  extractTitleScan true content

/-- Model of the Markdown title resolution
`options.title || metadata.title || extractTitleFromContent(content) || ''`
(markdownConverter.js line 76), with JavaScript truthiness. -/
def resolveMdTitle (optTitle : Option Str) (metadata : List (Str × Str))
    (body : Str) : Str :=
  match optTitle with
  | some (c :: cs) => c :: cs
  | _ =>
    match lookupMeta metadata "title".data with
    | some (c :: cs) => c :: cs
    | _ =>
      match extractTitleFromContent body with
      | some (c :: cs) => c :: cs
      | _ => []

/-! ### Lemmas for claim C6 -/

/-- A `get?` hit decomposes a list around the found element. -/
theorem get?_decomp : ∀ (s : Str) (k : Nat) (c : Char),
    s.get? k = some c → s = s.take k ++ c :: s.drop (k + 1)
  | [], k, c => by intro h; simp at h
  | a :: t, 0, c => by
      intro h
      simp only [List.get?] at h
      injection h with h
      simp [h]
  | a :: t, k + 1, c => by
      intro h
      simp only [List.get?] at h
      have ih := get?_decomp t k c h
      simp only [List.take_succ_cons, List.drop_succ_cons, List.cons_append]
      exact congrArg (a :: ·) ih

/-- Membership in the whitespace-newline candidate list yields the
whitespace property of the prefix and the decomposition at the newline. -/
theorem wsNlCandidates_spec (s : Str) (k : Nat) (hk : k ∈ wsNlCandidates s) :
    (∀ c ∈ s.take k, isJsWs c = true) ∧ s = s.take k ++ '\n' :: s.drop (k + 1) := by
  unfold wsNlCandidates at hk
  rw [List.mem_reverse, List.mem_filter, List.mem_range] at hk
  obtain ⟨hlt, hget⟩ := hk
  have hget' : (s.takeWhile isJsWs).get? k = some '\n' := of_decide_eq_true hget
  have hs : s.takeWhile isJsWs ++ s.dropWhile isJsWs = s :=
    List.takeWhile_append_dropWhile isJsWs s
  have htake : s.take k = (s.takeWhile isJsWs).take k := by
    conv_lhs => rw [← hs]
    rw [List.take_append_of_le_length (le_of_lt hlt)]
  have hsk : s.get? k = some '\n' := by
    conv_lhs => rw [← hs]
    rw [List.get?_append hlt]
    exact hget'
  refine ⟨?_, get?_decomp s k '\n' hsk⟩
  intro c hc
  rw [htake] at hc
  exact List.mem_takeWhile_imp (List.take_subset _ _ hc)

/-- The head of the candidate list is a candidate. -/
theorem head?_mem_wsNl {s : Str} {k : Nat}
    (h : (wsNlCandidates s).head? = some k) : k ∈ wsNlCandidates s := by
  cases hc : wsNlCandidates s with
  | nil => rw [hc] at h; exact absurd h (by simp)
  | cons a rest =>
      rw [hc] at h
      simp only [List.head?] at h
      injection h with h
      subst h
      exact List.mem_cons_self a rest

/-- Soundness of the closing-delimiter match: a successful `closeSplit`
exhibits the `---`, the whitespace run, and the final newline. -/
theorem closeSplit_sound (cs w2 g2 : Str) (h : closeSplit cs = some (w2, g2)) :
    (∀ c ∈ w2, isJsWs c = true) ∧
      cs = '-' :: '-' :: '-' :: (w2 ++ '\n' :: g2) := by
  unfold closeSplit at h
  split at h
  · rename_i rest2
    split at h
    · rename_i k hk
      injection h with h
      injection h with hw hg
      have hmem := head?_mem_wsNl hk
      obtain ⟨hws, hdec⟩ := wsNlCandidates_spec rest2 k hmem
      subst hw
      subst hg
      exact ⟨hws, by rw [← hdec]⟩
    · exact absurd h (by simp)
  · exact absurd h (by simp)

/-- On a string headed by a newline, zero is a whitespace-newline candidate,
so the candidate list is non-empty. -/
theorem wsNlCandidates_nl (y : Str) : (wsNlCandidates ('\n' :: y)).head?.isSome := by
  have h0 : 0 ∈ wsNlCandidates ('\n' :: y) := by
    unfold wsNlCandidates
    rw [List.mem_reverse, List.mem_filter, List.mem_range]
    constructor
    · simp [List.takeWhile, isJsWs]
    · simp [List.takeWhile, isJsWs]
  cases hc : wsNlCandidates ('\n' :: y) with
  | nil => rw [hc] at h0; exact absurd h0 (by simp)
  | cons a rest => simp

/-- The closing-delimiter match succeeds when the delimiter is immediately
followed by a newline. -/
theorem closeSplit_nl (y : Str) :
    (closeSplit ('-' :: '-' :: '-' :: '\n' :: y)).isSome := by
  unfold closeSplit
  have := wsNlCandidates_nl y
  cases hh : (wsNlCandidates ('\n' :: y)).head? with
  | none => rw [hh] at this; exact absurd this (by simp)
  | some k => simp [hh]

/-- Soundness of the lazy-group search: a successful `findClose` exhibits the
group, the closing `---`, its whitespace run, and the final newline. -/
theorem findClose_sound : ∀ (s g1 g2 : Str), findClose s = some (g1, g2) →
    ∃ w2 : Str, (∀ c ∈ w2, isJsWs c = true) ∧
      s = g1 ++ '\n' :: '-' :: '-' :: '-' :: (w2 ++ '\n' :: g2)
  | [], g1, g2 => by intro h; simp [findClose] at h
  | c :: cs, g1, g2 => by
      intro h
      unfold findClose at h
      by_cases hc : c = '\n'
      · rw [if_pos hc] at h
        cases hcl : closeSplit cs with
        | some pair =>
            obtain ⟨w2c, g2c⟩ := pair
            rw [hcl] at h
            injection h with h
            injection h with hg1 hg2
            obtain ⟨hws, hdec⟩ := closeSplit_sound cs w2c g2c hcl
            subst hg1
            subst hg2
            exact ⟨w2c, hws, by rw [hc, hdec]; rfl⟩
        | none =>
            rw [hcl] at h
            cases hf : findClose cs with
            | some pair =>
                obtain ⟨g1t, g2t⟩ := pair
                rw [hf] at h
                injection h with h
                injection h with hg1 hg2
                obtain ⟨w2, hws, hdec⟩ := findClose_sound cs g1t g2t hf
                subst hg1
                subst hg2
                exact ⟨w2, hws, by rw [hdec]; rfl⟩
            | none => rw [hf] at h; exact absurd h (by simp)
      · rw [if_neg hc] at h
        cases hf : findClose cs with
        | some pair =>
            obtain ⟨g1t, g2t⟩ := pair
            rw [hf] at h
            injection h with h
            injection h with hg1 hg2
            obtain ⟨w2, hws, hdec⟩ := findClose_sound cs g1t g2t hf
            subst hg1
            subst hg2
            exact ⟨w2, hws, by rw [hdec]; rfl⟩
        | none => rw [hf] at h; exact absurd h (by simp)

/-- Completeness of the lazy-group search: a closing delimiter followed by a
newline somewhere in the text is always found. -/
theorem findClose_complete : ∀ (x y : Str),
    (findClose (x ++ '\n' :: '-' :: '-' :: '-' :: '\n' :: y)).isSome
  | [], y => by
      unfold findClose
      have hcl := closeSplit_nl y
      cases hh : closeSplit ('-' :: '-' :: '-' :: '\n' :: y) with
      | none => rw [hh] at hcl; exact absurd hcl (by simp)
      | some pair =>
          obtain ⟨w2, g2⟩ := pair
          simp [hh]
  | c :: x', y => by
      have ih := findClose_complete x' y
      rw [List.cons_append]
      simp only [findClose]
      by_cases hc : c = '\n'
      · rw [if_pos hc]
        cases hcl : closeSplit (x' ++ '\n' :: '-' :: '-' :: '-' :: '\n' :: y) with
        | some pair => obtain ⟨w2, g2⟩ := pair; simp [hcl]
        | none =>
            cases hf : findClose (x' ++ '\n' :: '-' :: '-' :: '-' :: '\n' :: y) with
            | some pair => obtain ⟨g1, g2⟩ := pair; simp [hcl, hf]
            | none => rw [hf] at ih; exact absurd ih (by simp)
      · rw [if_neg hc]
        cases hf : findClose (x' ++ '\n' :: '-' :: '-' :: '-' :: '\n' :: y) with
        | some pair => obtain ⟨g1, g2⟩ := pair; simp [hf]
        | none => rw [hf] at ih; exact absurd ih (by simp)

/-- Soundness of the opening backtracking: success names a candidate whose
suffix the lazy-group search accepted. -/
theorem tryOpen_sound : ∀ (cands : List Nat) (r0 g1 g2 : Str),
    tryOpen cands r0 = some (g1, g2) →
    ∃ k ∈ cands, findClose (r0.drop (k + 1)) = some (g1, g2)
  | [], r0, g1, g2 => by intro h; simp [tryOpen] at h
  | k :: rest, r0, g1, g2 => by
      intro h
      unfold tryOpen at h
      cases hf : findClose (r0.drop (k + 1)) with
      | some pair =>
          rw [hf] at h
          injection h with h
          exact ⟨k, List.mem_cons_self k rest, by rw [hf, h]⟩
      | none =>
          rw [hf] at h
          obtain ⟨k2, hk2, hf2⟩ := tryOpen_sound rest r0 g1 g2 h
          exact ⟨k2, List.mem_cons_of_mem k hk2, hf2⟩

/-- Completeness of the opening backtracking: it succeeds as soon as any
candidate admits a closing delimiter. -/
theorem tryOpen_complete : ∀ (cands : List Nat) (r0 : Str) (k : Nat),
    k ∈ cands → (findClose (r0.drop (k + 1))).isSome →
    (tryOpen cands r0).isSome
  | [], _, _, hk, _ => absurd hk (by simp)
  | k1 :: rest, r0, k, hk, hf => by
      unfold tryOpen
      cases hf1 : findClose (r0.drop (k1 + 1)) with
      | some pair => obtain ⟨g1, g2⟩ := pair; simp
      | none =>
          rcases List.mem_cons.1 hk with rfl | hmem
          · rw [hf1] at hf; exact absurd hf (by simp)
          · exact tryOpen_complete rest r0 k hmem hf

/-- Soundness of the frontmatter regex: a match decomposes the input into the
opening `---` line, the enclosed block, and the closing `---` line followed
by a newline, the remainder being the body. -/
theorem fmMatch_sound (content g1 g2 : Str)
    (h : fmMatch content = some (g1, g2)) :
    ∃ w1 w2 : Str, (∀ c ∈ w1, isJsWs c = true) ∧ (∀ c ∈ w2, isJsWs c = true) ∧
      content = '-' :: '-' :: '-' ::
        (w1 ++ '\n' :: (g1 ++ '\n' :: '-' :: '-' :: '-' :: (w2 ++ '\n' :: g2))) := by
  unfold fmMatch at h
  split at h
  · rename_i r0
    obtain ⟨k, hk, hf⟩ := tryOpen_sound (wsNlCandidates r0) r0 g1 g2 h
    obtain ⟨hws1, hdec1⟩ := wsNlCandidates_spec r0 k hk
    obtain ⟨w2, hws2, hdec2⟩ := findClose_sound (r0.drop (k + 1)) g1 g2 hf
    refine ⟨r0.take k, w2, hws1, hws2, ?_⟩
    rw [← hdec2, ← hdec1]
  · exact absurd h (by simp)

/-- Completeness of the frontmatter regex: an input of the canonical
well-formed shape always matches. -/
theorem fmMatch_complete (a b : Str) :
    (fmMatch ('-' :: '-' :: '-' :: '\n' ::
      (a ++ '\n' :: '-' :: '-' :: '-' :: '\n' :: b))).isSome := by
  unfold fmMatch
  have h0 : 0 ∈ wsNlCandidates ('\n' :: (a ++ '\n' :: '-' :: '-' :: '-' :: '\n' :: b)) := by
    unfold wsNlCandidates
    rw [List.mem_reverse, List.mem_filter, List.mem_range]
    constructor
    · simp [List.takeWhile, isJsWs]
    · simp [List.takeWhile, isJsWs]
  exact tryOpen_complete _ _ 0 h0 (by simpa using findClose_complete a b)

/--
Claim C6 (counterexample): the claim covers every input beginning with a
`---` line followed by a closing `---` line, but the regex requires the
closing `---` line to be terminated by a newline — on the input
`---\ntitle: Foo\n---` (closing delimiter at end of input, no trailing
newline) extraction does not recognize the block: the metadata stays empty
and the whole input is returned as the body, where the claim requires the
parsed pair `title: Foo` and an empty body.
-/
theorem C6_closing_needs_trailing_newline :
    extractFrontmatter "---\ntitle: Foo\n---".data =
      ⟨"---\ntitle: Foo\n---".data, []⟩ ∧
    extractFrontmatter "---\ntitle: Foo\n---".data ≠
      ⟨[], [("title".data, "Foo".data)]⟩ := by
  exact ⟨by decide, by decide⟩

/--
Claim C6 (amended): for every Markdown input beginning with a `---` line
followed by a closing `---` line that is itself terminated by a newline,
frontmatter extraction parses the enclosed block as flat `key: value` pairs
(one per line, surrounding quotes stripped from values) and returns the
remainder after the closing delimiter (and its newline) as the body; the
block ends at the first such closing delimiter, and the `\s*` of the
delimiters absorbs adjacent whitespace.  When the regex does not match —
in particular when the closing `---` lacks a trailing newline — the entire
input is the body and the metadata is empty.  Conjuncts: (1) soundness:
every successful match decomposes the input into opening line, block, and
closing line, and the extraction result is exactly the parsed pairs of the
block with the remainder as body; (2) completeness: every input of the shape
`---\n<block>\n---\n<body>` is matched; (3) the no-match case returns the
input unchanged with empty metadata; (4) the spec's scenario:
`---\ntitle: Foo\n---\n# Body` yields body `# Body`, metadata
`title ↦ Foo`, and resolved title `Foo`.
-/
theorem C6_frontmatter_amended :
    (∀ content g1 g2 : Str, fmMatch content = some (g1, g2) →
      extractFrontmatter content = ⟨g2, parseFmPairs g1⟩ ∧
      ∃ w1 w2 : Str, (∀ c ∈ w1, isJsWs c = true) ∧ (∀ c ∈ w2, isJsWs c = true) ∧
        content = '-' :: '-' :: '-' ::
          (w1 ++ '\n' :: (g1 ++ '\n' :: '-' :: '-' :: '-' :: (w2 ++ '\n' :: g2)))) ∧
    (∀ a b : Str,
      (fmMatch ('-' :: '-' :: '-' :: '\n' ::
        (a ++ '\n' :: '-' :: '-' :: '-' :: '\n' :: b))).isSome) ∧
    (∀ content : Str, fmMatch content = none →
      extractFrontmatter content = ⟨content, []⟩) ∧
    extractFrontmatter "---\ntitle: Foo\n---\n# Body".data =
      ⟨"# Body".data, [("title".data, "Foo".data)]⟩ ∧
    resolveMdTitle none
      (extractFrontmatter "---\ntitle: Foo\n---\n# Body".data).metadata
      (extractFrontmatter "---\ntitle: Foo\n---\n# Body".data).content =
      "Foo".data := by
  refine ⟨?_, fmMatch_complete, ?_, by decide, by decide⟩
  · intro content g1 g2 h
    refine ⟨?_, fmMatch_sound content g1 g2 h⟩
    unfold extractFrontmatter
    rw [h]
  · intro content h
    unfold extractFrontmatter
    rw [h]

/--
Witness for claim C6 (amended): the soundness component applied to the
concrete scenario input (its match hypothesis discharged by evaluation), and
the no-match component applied to an input without frontmatter.
-/
theorem C6_frontmatter_amended_witness :
    (extractFrontmatter "---\ntitle: Foo\n---\n# Body".data =
        ⟨"# Body".data, parseFmPairs "title: Foo".data⟩ ∧
      ∃ w1 w2 : Str, (∀ c ∈ w1, isJsWs c = true) ∧ (∀ c ∈ w2, isJsWs c = true) ∧
        "---\ntitle: Foo\n---\n# Body".data = '-' :: '-' :: '-' ::
          (w1 ++ '\n' :: ("title: Foo".data ++
            '\n' :: '-' :: '-' :: '-' :: (w2 ++ '\n' :: "# Body".data)))) ∧
    extractFrontmatter "no frontmatter here".data =
      ⟨"no frontmatter here".data, []⟩ :=
  ⟨C6_frontmatter_amended.1 "---\ntitle: Foo\n---\n# Body".data
      "title: Foo".data "# Body".data (by decide),
    C6_frontmatter_amended.2.2.1 "no frontmatter here".data (by decide)⟩

/-! ### Raw-mode round trip (claim C4)

A value-producing model of `JSON.parse` over the embedded value type
(numbers integral, as everywhere in the embedding), an HTML entity
unescaper, and the round-trip theorem for `jsonToRaw`. -/

/-- The entity tail following an ampersand, for the five escapes of the
converters' map: the decoded character and the remainder. -/
def entityAt : Str → Option (Char × Str)
  | 'a' :: 'm' :: 'p' :: ';' :: r2 => some ('&', r2)
  | 'l' :: 't' :: ';' :: r2 => some ('<', r2)
  | 'g' :: 't' :: ';' :: r2 => some ('>', r2)
  | 'q' :: 'u' :: 'o' :: 't' :: ';' :: r2 => some ('"', r2)
  | '#' :: '0' :: '3' :: '9' :: ';' :: r2 => some (apos, r2)
  | _ => none

/-- Fuelled worker of the HTML entity unescaper: each step either decodes an
entity or copies one character, so the input length is sufficient fuel. -/
def unescapeHtmlF : Nat → Str → Str
  | 0, s => s
  | _ + 1, [] => []
  | fuel + 1, c :: r =>
      if c = '&' then
        match entityAt r with
        | some (ec, r2) => ec :: unescapeHtmlF fuel r2
        | none => '&' :: unescapeHtmlF fuel r
      else c :: unescapeHtmlF fuel r

/-- Inverse of the five HTML entity escapes: the code-block content is
HTML-unescaped by mapping each entity back to its character. -/
def unescapeHtml (s : Str) : Str := unescapeHtmlF s.length s

/-- Numeric value of a hexadecimal digit. -/
def hexVal (c : Char) : Nat :=
  if c.isDigit then c.toNat - 48
  else if 'a' ≤ c && c ≤ 'f' then c.toNat - 87
  else c.toNat - 55

/-- The character encoded by a two-character JSON escape (other than `\u`). -/
def unescapeOf (e : Char) : Option Char :=
  if e = '"' then some '"'
  else if e = '\\' then some '\\'
  else if e = '/' then some '/'
  else if e = 'b' then some '\x08'
  else if e = 'f' then some '\x0c'
  else if e = 'n' then some '\n'
  else if e = 'r' then some '\r'
  else if e = 't' then some '\t'
  else none

/-- Value-producing scanner for a JSON string literal after its opening
quote: the string value and the remainder after the closing quote. -/
def parseStringRest : Str → Option (Str × Str)
  | [] => none
  | c :: r =>
      if c = '"' then some ([], r)
      else if c = '\\' then
        match r with
        | [] => none
        | e :: r1 =>
            if e = 'u' then
              match r1 with
              | h1 :: h2 :: h3 :: h4 :: r2 =>
                  if isHexDig h1 && isHexDig h2 && isHexDig h3 && isHexDig h4 then
                    match parseStringRest r2 with
                    | some (s, rest) =>
                        some (Char.ofNat (hexVal h1 * 4096 + hexVal h2 * 256 +
                          hexVal h3 * 16 + hexVal h4) :: s, rest)
                    | none => none
                  else none
              | _ => none
            else
              match unescapeOf e with
              | some ec =>
                  (match parseStringRest r1 with
                   | some (s, rest) => some (ec :: s, rest)
                   | none => none)
              | none => none
      else if c.toNat < 0x20 then none
      else
        match parseStringRest r with
        | some (s, rest) => some (c :: s, rest)
        | none => none

/-- Accumulating decimal scan: consume leading digits, leave the rest. -/
def digitsToNat (acc : Nat) : Str → Nat × Str
  | [] => (acc, [])
  | c :: r =>
      if isDigitChar c then digitsToNat (acc * 10 + (c.toNat - 48)) r
      else (acc, c :: r)

/-- Value-producing scanner for a JSON number (integral, as in the value
embedding; a maximal digit run is consumed). -/
def parseNumber : Str → Option (Json × Str)
  | [] => none
  | c :: r =>
      if c = '-' then
        match r with
        | c2 :: r2 =>
            if isDigitChar c2 then
              let p := digitsToNat (c2.toNat - 48) r2
              some (.num (-(p.1 : Int)), p.2)
            else none
        | [] => none
      else if isDigitChar c then
        let p := digitsToNat (c.toNat - 48) r
        some (.num (p.1 : Int), p.2)
      else none

mutual
/-- Fuelled value-producing parser for one JSON value. -/
def parseVal : Nat → Str → Option (Json × Str)
  | 0, _ => none
  | fuel + 1, s =>
    match skipJsonWs s with
    | [] => none
    | c :: r =>
        if c = 'n' then
          match r with
          | 'u' :: 'l' :: 'l' :: r2 => some (.null, r2)
          | _ => none
        else if c = 't' then
          match r with
          | 'r' :: 'u' :: 'e' :: r2 => some (.bool true, r2)
          | _ => none
        else if c = 'f' then
          match r with
          | 'a' :: 'l' :: 's' :: 'e' :: r2 => some (.bool false, r2)
          | _ => none
        else if c = '"' then
          match parseStringRest r with
          | some (s2, rest) => some (.str s2, rest)
          | none => none
        else if c = '[' then
          match skipJsonWs r with
          | [] => none
          | c2 :: r2 =>
              if c2 = ']' then some (.arr .nil, r2)
              else
                match parseElems fuel (c2 :: r2) with
                | some (items, rest) => some (.arr items, rest)
                | none => none
        else if c = '\x7b' then
          match skipJsonWs r with
          | [] => none
          | c2 :: r2 =>
              if c2 = '\x7d' then some (.obj .nil, r2)
              else
                match parseMembers fuel (c2 :: r2) with
                | some (fs, rest) => some (.obj fs, rest)
                | none => none
        else parseNumber (c :: r)

/-- Fuelled parser for the elements of a non-empty JSON array. -/
def parseElems : Nat → Str → Option (JList × Str)
  | 0, _ => none
  | fuel + 1, s =>
    match parseVal fuel s with
    | some (v, r) =>
        (match skipJsonWs r with
         | [] => none
         | c :: r2 =>
             if c = ',' then
               match parseElems fuel r2 with
               | some (items, rest) => some (.cons v items, rest)
               | none => none
             else if c = ']' then some (.cons v .nil, r2)
             else none)
    | none => none

/-- Fuelled parser for the members of a non-empty JSON object. -/
def parseMembers : Nat → Str → Option (JFields × Str)
  | 0, _ => none
  | fuel + 1, s =>
    match skipJsonWs s with
    | [] => none
    | c :: r =>
        if c = '"' then
          match parseStringRest r with
          | some (k, r2) =>
              (match skipJsonWs r2 with
               | [] => none
               | c2 :: r3 =>
                   if c2 = ':' then
                     match parseVal fuel r3 with
                     | some (v, r4) =>
                         (match skipJsonWs r4 with
                          | [] => none
                          | c3 :: r5 =>
                              if c3 = ',' then
                                match parseMembers fuel r5 with
                                | some (fs, rest) => some (.cons k v fs, rest)
                                | none => none
                              else if c3 = '\x7d' then some (.cons k v .nil, r5)
                              else none)
                     | none => none
                   else none)
          | none => none
        else none
end

/-- Model of `JSON.parse` on the embedded values: one value, nothing but
whitespace after it. -/
def parseJson (s : Str) : Option Json :=
  match parseVal (2 * s.length + 2) s with
  | some (v, rest) => if (skipJsonWs rest).isEmpty then some v else none
  | none => none

/-! ### Lemmas for claim C4: the HTML escape/unescape pair -/

/-- Every character escapes to a non-empty replacement. -/
theorem escapeHtmlChar_length_pos (c : Char) : 0 < (escapeHtmlChar c).length := by
  unfold escapeHtmlChar
  split
  · simp
  · split
    · simp
    · split
      · simp
      · split
        · simp
        · split <;> simp

/-- Unescaping the escape of a string recovers the string, given fuel at
least the escaped length. -/
theorem unescapeHtmlF_escape : ∀ (s : Str) (fuel : Nat),
    (escapeHtml s).length ≤ fuel → unescapeHtmlF fuel (escapeHtml s) = s
  | [], fuel, _ => by cases fuel <;> rfl
  | c :: s, fuel, hf => by
      have hpos : 0 < (escapeHtmlChar c).length := escapeHtmlChar_length_pos c
      have hlen : (escapeHtml (c :: s)).length =
          (escapeHtmlChar c).length + (escapeHtml s).length := by
        simp [escapeHtml, concatMap]
      obtain ⟨f, rfl⟩ : ∃ f, fuel = f + 1 := ⟨fuel - 1, by omega⟩
      have hrec : (escapeHtml s).length ≤ f := by omega
      have ih := unescapeHtmlF_escape s f hrec
      by_cases h1 : c = '&'
      · subst h1
        have he : escapeHtml ('&' :: s) = '&' :: 'a' :: 'm' :: 'p' :: ';' :: escapeHtml s := by
          simp [escapeHtml, concatMap, escapeHtmlChar]
        rw [he]
        have hstep : unescapeHtmlF (f + 1) ('&' :: 'a' :: 'm' :: 'p' :: ';' :: escapeHtml s) =
            '&' :: unescapeHtmlF f (escapeHtml s) := rfl
        rw [hstep, ih]
      · by_cases h2 : c = '<'
        · subst h2
          have he : escapeHtml ('<' :: s) = '&' :: 'l' :: 't' :: ';' :: escapeHtml s := by
            simp [escapeHtml, concatMap, escapeHtmlChar]
          rw [he]
          have hstep : unescapeHtmlF (f + 1) ('&' :: 'l' :: 't' :: ';' :: escapeHtml s) =
              '<' :: unescapeHtmlF f (escapeHtml s) := rfl
          rw [hstep, ih]
        · by_cases h3 : c = '>'
          · subst h3
            have he : escapeHtml ('>' :: s) = '&' :: 'g' :: 't' :: ';' :: escapeHtml s := by
              simp [escapeHtml, concatMap, escapeHtmlChar]
            rw [he]
            have hstep : unescapeHtmlF (f + 1) ('&' :: 'g' :: 't' :: ';' :: escapeHtml s) =
                '>' :: unescapeHtmlF f (escapeHtml s) := rfl
            rw [hstep, ih]
          · by_cases h4 : c = '"'
            · subst h4
              have he : escapeHtml ('"' :: s) =
                  '&' :: 'q' :: 'u' :: 'o' :: 't' :: ';' :: escapeHtml s := by
                simp [escapeHtml, concatMap, escapeHtmlChar]
              rw [he]
              have hstep : unescapeHtmlF (f + 1)
                  ('&' :: 'q' :: 'u' :: 'o' :: 't' :: ';' :: escapeHtml s) =
                  '"' :: unescapeHtmlF f (escapeHtml s) := rfl
              rw [hstep, ih]
            · by_cases h5 : c = apos
              · subst h5
                have he : escapeHtml (apos :: s) =
                    '&' :: '#' :: '0' :: '3' :: '9' :: ';' :: escapeHtml s := by
                  simp [escapeHtml, concatMap, escapeHtmlChar, h1, h2, h3, h4]
                rw [he]
                have hstep : unescapeHtmlF (f + 1)
                    ('&' :: '#' :: '0' :: '3' :: '9' :: ';' :: escapeHtml s) =
                    apos :: unescapeHtmlF f (escapeHtml s) := rfl
                rw [hstep, ih]
              · have he : escapeHtml (c :: s) = c :: escapeHtml s := by
                  simp [escapeHtml, concatMap, escapeHtmlChar, h1, h2, h3, h4, h5]
                rw [he]
                simp only [unescapeHtmlF, if_neg h1]
                rw [ih]

/-- Unescaping inverts escaping. -/
theorem unescapeHtml_escapeHtml (s : Str) :
    unescapeHtml (escapeHtml s) = s :=
  unescapeHtmlF_escape s (escapeHtml s).length (le_refl _)

/-! ### Lemmas for claim C4: decimal numerals -/

/-- The delimiters that can follow a value inside a pretty-printed document:
end of input, a comma, or a newline. -/
def delimOk : Str → Bool
  | [] => true
  | c :: _ => c = ',' || c = '\n'

/-- Code point of a digit character built from a digit value. -/
theorem toNat_digitChar (k : Nat) (hk : k < 10) :
    (Char.ofNat (48 + k)).toNat = 48 + k := by
  interval_cases k <;> decide

/-- Every character of a fuelled numeral is a decimal digit. -/
theorem natCharsF_digits : ∀ (fuel m : Nat), ∀ c ∈ natCharsF fuel m,
    48 ≤ c.toNat ∧ c.toNat ≤ 57
  | 0, m => by intro c hc; simp [natCharsF] at hc
  | fuel + 1, m => by
      intro c hc
      unfold natCharsF at hc
      by_cases hm : m < 10
      · rw [if_pos hm] at hc
        simp at hc
        subst hc
        rw [toNat_digitChar m hm]
        omega
      · rw [if_neg hm] at hc
        rw [List.mem_append] at hc
        rcases hc with hc | hc
        · exact natCharsF_digits fuel (m / 10) c hc
        · simp at hc
          subst hc
          rw [toNat_digitChar (m % 10) (Nat.mod_lt m (by norm_num))]
          omega

/-- A fuelled numeral is never empty (with non-zero fuel). -/
theorem natCharsF_ne_nil (fuel m : Nat) : natCharsF (fuel + 1) m ≠ [] := by
  unfold natCharsF
  by_cases hm : m < 10
  · rw [if_pos hm]; simp
  · rw [if_neg hm]; simp

/-- The decimal value accumulated over a digit list (the pure counterpart of
`digitsToNat`). -/
def valAcc (acc : Nat) : Str → Nat
  | [] => acc
  | c :: r => valAcc (acc * 10 + (c.toNat - 48)) r

/-- The accumulating decimal value of a concatenation. -/
theorem valAcc_append (xs : Str) : ∀ (ys : Str) (acc : Nat),
    valAcc acc (xs ++ ys) = valAcc (valAcc acc xs) ys := by
  induction xs with
  | nil => intro ys acc; rfl
  | cons c xs ih =>
      intro ys acc
      rw [List.cons_append]
      show valAcc (acc * 10 + (c.toNat - 48)) (xs ++ ys) =
        valAcc (valAcc (acc * 10 + (c.toNat - 48)) xs) ys
      exact ih ys _

/-- The fuelled numeral evaluates back to its number. -/
theorem valAcc_natCharsF : ∀ (fuel m : Nat), m < 10 ^ fuel →
    ∀ acc : Nat, valAcc acc (natCharsF fuel m) = acc * 10 ^ (natCharsF fuel m).length + m := by
  intro fuel
  induction fuel with
  | zero =>
      intro m hm acc
      rw [pow_zero] at hm
      have hm0 : m = 0 := by omega
      subst hm0
      show acc = acc * 10 ^ (natCharsF 0 0).length + 0
      norm_num [natCharsF]
  | succ fuel ih =>
      intro m hm acc
      unfold natCharsF
      by_cases h10 : m < 10
      · rw [if_pos h10]
        have h1 : valAcc acc [Char.ofNat (48 + m)] =
            acc * 10 + ((Char.ofNat (48 + m)).toNat - 48) := rfl
        rw [h1, toNat_digitChar m h10]
        have h48 : 48 + m - 48 = m := by omega
        rw [h48]
        have h2 : ([Char.ofNat (48 + m)] : Str).length = 1 := rfl
        rw [h2, pow_one]
      · rw [if_neg h10]
        have hdiv : m / 10 < 10 ^ fuel := by
          rw [Nat.div_lt_iff_lt_mul (by norm_num : 0 < 10)]
          calc m < 10 ^ (fuel + 1) := hm
            _ = 10 ^ fuel * 10 := by rw [pow_succ]
        rw [valAcc_append]
        rw [ih (m / 10) hdiv acc]
        have h1 : valAcc (acc * 10 ^ (natCharsF fuel (m / 10)).length + m / 10)
            [Char.ofNat (48 + m % 10)] =
            (acc * 10 ^ (natCharsF fuel (m / 10)).length + m / 10) * 10 +
              ((Char.ofNat (48 + m % 10)).toNat - 48) := rfl
        rw [h1, List.length_append, List.length_cons, List.length_nil]
        rw [toNat_digitChar (m % 10) (Nat.mod_lt m (by norm_num))]
        have hmod : 48 + m % 10 - 48 = m % 10 := by omega
        rw [hmod]
        have hsplit : (acc * 10 ^ (natCharsF fuel (m / 10)).length + m / 10) * 10 + m % 10 =
            acc * (10 ^ (natCharsF fuel (m / 10)).length * 10) + (m / 10 * 10 + m % 10) := by
          ring
        rw [hsplit]
        have hdm : m / 10 * 10 + m % 10 = m := by omega
        rw [hdm]
        have hp : (10:Nat) ^ ((natCharsF fuel (m / 10)).length + (0 + 1)) =
            10 ^ (natCharsF fuel (m / 10)).length * 10 := by
          rw [show (natCharsF fuel (m / 10)).length + (0 + 1) =
            (natCharsF fuel (m / 10)).length + 1 from rfl, pow_succ]
        rw [hp]

/-- The numeral of a natural number evaluates back to it. -/
theorem valAcc_natChars (m : Nat) : valAcc 0 (natChars m) = m := by
  have hlt : m < 10 ^ (m + 1) := by
    calc m < 2 ^ m := Nat.lt_two_pow m
      _ ≤ 10 ^ m := Nat.pow_le_pow_left (by norm_num) m
      _ ≤ 10 ^ (m + 1) := Nat.pow_le_pow_right (by norm_num) (by omega)
  have := valAcc_natCharsF (m + 1) m hlt 0
  simpa [natChars] using this

/-- Whether the head of the remainder is not a digit. -/
def notDigitHead : Str → Prop
  | [] => True
  | c :: _ => isDigitChar c = false

/-- The digit scan of digits followed by a non-digit remainder. -/
theorem digitsToNat_eq (xs : Str) : ∀ (rest : Str) (acc : Nat),
    (∀ c ∈ xs, isDigitChar c = true) → notDigitHead rest →
    digitsToNat acc (xs ++ rest) = (valAcc acc xs, rest) := by
  induction xs with
  | nil =>
      intro rest acc _ hrest
      cases rest with
      | nil => rfl
      | cons c r =>
          simp only [notDigitHead] at hrest
          have h1 : digitsToNat acc ([] ++ c :: r) =
              if isDigitChar c = true then digitsToNat (acc * 10 + (c.toNat - 48)) r
              else (acc, c :: r) := rfl
          rw [h1, if_neg (by simp [hrest])]
          show (acc, c :: r) = (valAcc acc [], c :: r)
          rfl
  | cons c xs ih =>
      intro rest acc hxs hrest
      have hc : isDigitChar c = true := hxs c (by simp)
      have h1 : digitsToNat acc ((c :: xs) ++ rest) =
          if isDigitChar c = true then digitsToNat (acc * 10 + (c.toNat - 48)) (xs ++ rest)
          else (acc, (c :: xs) ++ rest) := rfl
      rw [h1, if_pos hc]
      have h2 : valAcc acc (c :: xs) = valAcc (acc * 10 + (c.toNat - 48)) xs := rfl
      rw [h2]
      exact ih rest _ (fun d hd => hxs d (by simp [hd])) hrest

/-- A value delimiter never begins with a digit. -/
theorem delimOk_notDigit {rest : Str} (h : delimOk rest = true) :
    notDigitHead rest := by
  cases rest with
  | nil => trivial
  | cons c r =>
      simp only [delimOk, Bool.or_eq_true, decide_eq_true_eq] at h
      rcases h with rfl | rfl <;> simp [notDigitHead, isDigitChar]

/-- Parsing the rendering of an integer recovers it, in front of any value
delimiter. -/
theorem parseNumber_rt (n : Int) (rest : Str) (hrest : delimOk rest = true) :
    parseNumber (intChars n ++ rest) = some (.num n, rest) := by
  have hnd := delimOk_notDigit hrest
  cases n with
  | ofNat m =>
      have hne := natCharsF_ne_nil m m
      cases hnat : natChars m with
      | nil => exact absurd hnat hne
      | cons c ds =>
          have hdig : ∀ d ∈ natChars m, 48 ≤ Char.toNat d ∧ Char.toNat d ≤ 57 := by
            intro d hd
            exact natCharsF_digits (m + 1) m d hd
          have hcdig : 48 ≤ c.toNat ∧ c.toNat ≤ 57 := by
            apply hdig; rw [hnat]; simp
          have hcd : isDigitChar c = true := by
            simp [isDigitChar]; omega
          have hcne : ¬(c = '-') := by
            intro h
            subst h
            simp at hcdig
          show parseNumber (intChars (Int.ofNat m) ++ rest) = _
          have : intChars (Int.ofNat m) = natChars m := rfl
          rw [this, hnat, List.cons_append]
          simp only [parseNumber]
          rw [if_neg hcne, if_pos hcd]
          have hds : ∀ d ∈ ds, isDigitChar d = true := by
            intro d hd
            have := hdig d (by rw [hnat]; simp [hd])
            simp [isDigitChar]; omega
          rw [digitsToNat_eq ds rest _ hds hnd]
          have hval : valAcc (c.toNat - 48) ds = m := by
            have h0 := valAcc_natChars m
            rw [hnat] at h0
            have h1 : valAcc 0 (c :: ds) = valAcc (0 * 10 + (c.toNat - 48)) ds := rfl
            have h2 : 0 * 10 + (c.toNat - 48) = c.toNat - 48 := by omega
            rw [h1, h2] at h0
            exact h0
          rw [hval]
          rfl
  | negSucc m =>
      have hne := natCharsF_ne_nil (m + 1) (m + 1)
      cases hnat : natChars (m + 1) with
      | nil => exact absurd hnat hne
      | cons c ds =>
          have hdig : ∀ d ∈ natChars (m + 1), 48 ≤ Char.toNat d ∧ Char.toNat d ≤ 57 := by
            intro d hd
            exact natCharsF_digits (m + 2) (m + 1) d hd
          have hcdig : 48 ≤ c.toNat ∧ c.toNat ≤ 57 := by
            apply hdig; rw [hnat]; simp
          have hcd : isDigitChar c = true := by
            simp [isDigitChar]; omega
          have : intChars (Int.negSucc m) = '-' :: natChars (m + 1) := rfl
          rw [this, hnat, List.cons_append, List.cons_append]
          have hstep : parseNumber ('-' :: c :: (ds ++ rest)) =
              if isDigitChar c = true then
                some (Json.num (-((digitsToNat (c.toNat - 48) (ds ++ rest)).1 : Int)),
                  (digitsToNat (c.toNat - 48) (ds ++ rest)).2)
              else none := rfl
          rw [hstep, if_pos hcd]
          have hds : ∀ d ∈ ds, isDigitChar d = true := by
            intro d hd
            have := hdig d (by rw [hnat]; simp [hd])
            simp [isDigitChar]; omega
          rw [digitsToNat_eq ds rest _ hds hnd]
          have hval : valAcc (c.toNat - 48) ds = m + 1 := by
            have h0 := valAcc_natChars (m + 1)
            rw [hnat] at h0
            have h1 : valAcc 0 (c :: ds) = valAcc (0 * 10 + (c.toNat - 48)) ds := rfl
            have h2 : 0 * 10 + (c.toNat - 48) = c.toNat - 48 := by omega
            rw [h1, h2] at h0
            exact h0
          show some (Json.num (-((valAcc (c.toNat - 48) ds : Nat) : Int)), rest) =
            some (Json.num (Int.negSucc m), rest)
          rw [hval]
          have hneg : -((m + 1 : Nat) : Int) = Int.negSucc m := by
            rw [Int.negSucc_eq]
            push_cast
            ring
          rw [hneg]

/-! ### Lemmas for claim C4: string literals -/

/-- Hexadecimal digits built by `hexDigit` pass the hex digit test. -/
theorem isHexDig_hexDigit (j : Nat) (hj : j < 16) :
    isHexDig (hexDigit j) = true := by
  interval_cases j <;> decide

/-- The value of a built hexadecimal digit. -/
theorem hexVal_hexDigit (j : Nat) (hj : j < 16) : hexVal (hexDigit j) = j := by
  interval_cases j <;> decide

/-- The equation of the string scanner at an ordinary character. -/
theorem parseStringRest_cons (c : Char) (r : Str) (h : ¬ c = '"')
    (h2 : ¬ c = '\\') (h3 : ¬ c.toNat < 0x20) :
    parseStringRest (c :: r) =
      (match parseStringRest r with
       | some (s, rest) => some (c :: s, rest)
       | none => none) := by
  conv_lhs => unfold parseStringRest
  rw [if_neg h, if_neg h2, if_neg h3]

/-- Scanning the escaped rendering of a string recovers it, with the
remainder after the closing quote. -/
theorem parseStringRest_rt (s : Str) : ∀ rest : Str,
    parseStringRest (concatMap jsonEscapeChar s ++ '"' :: rest) = some (s, rest) := by
  induction s with
  | nil =>
      intro rest
      show parseStringRest ('"' :: rest) = some ([], rest)
      conv_lhs => unfold parseStringRest
      simp
  | cons c xs ih =>
      intro rest
      have hsplit : concatMap jsonEscapeChar (c :: xs) ++ '"' :: rest =
          jsonEscapeChar c ++ (concatMap jsonEscapeChar xs ++ '"' :: rest) := by
        simp [concatMap]
      rw [hsplit]
      by_cases hq : c = '"'
      · subst hq
        rw [show jsonEscapeChar '"' = ['\\', '"'] from rfl]
        simp only [List.cons_append, List.nil_append]
        conv_lhs => unfold parseStringRest
        simp [unescapeOf, ih rest]
      · by_cases hb : c = '\\'
        · subst hb
          rw [show jsonEscapeChar '\\' = ['\\', '\\'] from rfl]
          simp only [List.cons_append, List.nil_append]
          conv_lhs => unfold parseStringRest
          simp [unescapeOf, ih rest]
        · by_cases h08 : c = '\x08'
          · subst h08
            rw [show jsonEscapeChar '\x08' = ['\\', 'b'] from rfl]
            simp only [List.cons_append, List.nil_append]
            conv_lhs => unfold parseStringRest
            simp [unescapeOf, ih rest]
          · by_cases ht : c = '\t'
            · subst ht
              rw [show jsonEscapeChar '\t' = ['\\', 't'] from rfl]
              simp only [List.cons_append, List.nil_append]
              conv_lhs => unfold parseStringRest
              simp [unescapeOf, ih rest]
            · by_cases hn : c = '\n'
              · subst hn
                rw [show jsonEscapeChar '\n' = ['\\', 'n'] from rfl]
                simp only [List.cons_append, List.nil_append]
                conv_lhs => unfold parseStringRest
                simp [unescapeOf, ih rest]
              · by_cases hf : c = '\x0c'
                · subst hf
                  rw [show jsonEscapeChar '\x0c' = ['\\', 'f'] from rfl]
                  simp only [List.cons_append, List.nil_append]
                  conv_lhs => unfold parseStringRest
                  simp [unescapeOf, ih rest]
                · by_cases hr : c = '\r'
                  · subst hr
                    rw [show jsonEscapeChar '\r' = ['\\', 'r'] from rfl]
                    simp only [List.cons_append, List.nil_append]
                    conv_lhs => unfold parseStringRest
                    simp [unescapeOf, ih rest]
                  · by_cases hctl : c.toNat < 0x20
                    · have he : jsonEscapeChar c =
                          ['\\', 'u', '0', '0', hexDigit (c.toNat / 16),
                            hexDigit (c.toNat % 16)] := by
                        unfold jsonEscapeChar
                        rw [if_neg hq, if_neg hb, if_neg h08, if_neg ht, if_neg hn,
                          if_neg hf, if_neg hr, if_pos hctl]
                      rw [he]
                      have hdivlt : c.toNat / 16 < 16 := by omega
                      have hmodlt : c.toNat % 16 < 16 := by omega
                      simp only [List.cons_append, List.nil_append]
                      conv_lhs => unfold parseStringRest
                      simp [isHexDig_hexDigit _ hdivlt, isHexDig_hexDigit _ hmodlt,
                        hexVal_hexDigit _ hdivlt, hexVal_hexDigit _ hmodlt, ih rest]
                      have harith : hexVal '0' * 4096 + hexVal '0' * 256 +
                          c.toNat / 16 * 16 + c.toNat % 16 = c.toNat := by
                        have h0 : hexVal '0' = 0 := by decide
                        rw [h0]
                        omega
                      rw [harith, Char.ofNat_toNat]
                      exact ⟨by decide, rfl⟩
                    · have he : jsonEscapeChar c = [c] := by
                        unfold jsonEscapeChar
                        rw [if_neg hq, if_neg hb, if_neg h08, if_neg ht, if_neg hn,
                          if_neg hf, if_neg hr, if_neg hctl]
                      rw [he]
                      simp only [List.cons_append, List.nil_append]
                      rw [parseStringRest_cons c _ hq hb hctl, ih rest]

/-! ### Lemmas for claim C4: whitespace skipping and value heads -/

/-- Skipping is unchanged by a leading whitespace character. -/
theorem skipJsonWs_cons_ws {c : Char} (hc : jsonWsChar c = true) (t : Str) :
    skipJsonWs (c :: t) = skipJsonWs t := by
  simp [skipJsonWs, List.dropWhile, hc]

/-- Skipping stops at a non-whitespace character. -/
theorem skipJsonWs_cons_not {c : Char} (hc : jsonWsChar c = false) (t : Str) :
    skipJsonWs (c :: t) = c :: t := by
  simp [skipJsonWs, List.dropWhile, hc]

/-- Skipping consumes any all-whitespace prefix. -/
theorem skipJsonWs_append_ws : ∀ w : Str, (∀ c ∈ w, jsonWsChar c = true) →
    ∀ s : Str, skipJsonWs (w ++ s) = skipJsonWs s
  | [], _, _ => rfl
  | c :: w, hw, s => by
      rw [List.cons_append, skipJsonWs_cons_ws (hw c (by simp))]
      exact skipJsonWs_append_ws w (fun d hd => hw d (by simp [hd])) s

/-- Indentation runs are whitespace. -/
theorem skipJsonWs_spaces (n : Nat) (t : Str) :
    skipJsonWs (spaces n ++ t) = skipJsonWs t := by
  apply skipJsonWs_append_ws
  intro c hc
  have := List.eq_of_mem_replicate hc
  subst this
  decide

/-- The value parser ignores leading whitespace. -/
theorem parseVal_ws (fuel : Nat) (w : Str) (hw : ∀ c ∈ w, jsonWsChar c = true)
    (s : Str) : parseVal fuel (w ++ s) = parseVal fuel s := by
  cases fuel with
  | zero => rfl
  | succ f =>
      conv_lhs => rw [parseVal]
      conv_rhs => rw [parseVal]
      rw [skipJsonWs_append_ws w hw s]

/-- The element parser ignores leading whitespace. -/
theorem parseElems_ws (fuel : Nat) (w : Str) (hw : ∀ c ∈ w, jsonWsChar c = true)
    (s : Str) : parseElems fuel (w ++ s) = parseElems fuel s := by
  cases fuel with
  | zero => rfl
  | succ f =>
      conv_lhs => rw [parseElems]
      conv_rhs => rw [parseElems]
      rw [parseVal_ws f w hw s]

/-- The member parser ignores leading whitespace. -/
theorem parseMembers_ws (fuel : Nat) (w : Str) (hw : ∀ c ∈ w, jsonWsChar c = true)
    (s : Str) : parseMembers fuel (w ++ s) = parseMembers fuel s := by
  cases fuel with
  | zero => rfl
  | succ f =>
      conv_lhs => rw [parseMembers]
      conv_rhs => rw [parseMembers]
      rw [skipJsonWs_append_ws w hw s]

/-- Characters with digit code points are not whitespace and not closing
brackets. -/
theorem digit_head_ok {c : Char} (h1 : 48 ≤ c.toNat) (h2 : c.toNat ≤ 57) :
    jsonWsChar c = false ∧ c ≠ ']' := by
  have hs : c ≠ ' ' := fun h => by subst h; exact absurd h1 (by decide)
  have hT : c ≠ '\t' := fun h => by subst h; exact absurd h1 (by decide)
  have hN : c ≠ '\n' := fun h => by subst h; exact absurd h1 (by decide)
  have hR : c ≠ '\r' := fun h => by subst h; exact absurd h1 (by decide)
  have hB : c ≠ ']' := fun h => by subst h; exact absurd h2 (by decide)
  exact ⟨by simp [jsonWsChar, hs, hT, hN, hR], hB⟩

/-- Every pretty-printed value starts with a character that is neither
whitespace nor a closing bracket. -/
theorem stringifyAt_head (ind : Nat) (v : Json) :
    ∃ (c : Char) (t : Str), stringifyAt ind v = c :: t ∧
      jsonWsChar c = false ∧ c ≠ ']' := by
  cases v with
  | null => exact ⟨'n', _, rfl, by decide, by decide⟩
  | bool b => cases b with
      | true => exact ⟨'t', _, rfl, by decide, by decide⟩
      | false => exact ⟨'f', _, rfl, by decide, by decide⟩
  | str s => exact ⟨'"', _, rfl, by decide, by decide⟩
  | num n =>
      cases n with
      | ofNat m =>
          cases hnat : natChars m with
          | nil => exact absurd hnat (natCharsF_ne_nil m m)
          | cons c t =>
              have hd : 48 ≤ c.toNat ∧ c.toNat ≤ 57 := by
                apply natCharsF_digits (m + 1) m
                rw [show natCharsF (m + 1) m = natChars m from rfl, hnat]
                simp
              obtain ⟨hws, hne⟩ := digit_head_ok hd.1 hd.2
              exact ⟨c, t, by show natChars m = _; rw [hnat], hws, hne⟩
      | negSucc m =>
          exact ⟨'-', _, rfl, by decide, by decide⟩
  | arr items =>
      cases items with
      | nil => exact ⟨'[', _, rfl, by decide, by decide⟩
      | cons x xs => exact ⟨'[', _, rfl, by decide, by decide⟩
  | obj fields =>
      cases fields with
      | nil => exact ⟨'\x7b', _, rfl, by decide, by decide⟩
      | cons k v fs => exact ⟨'\x7b', _, rfl, by decide, by decide⟩

/-! ### Lemmas for claim C4: parser fuel accounting -/

mutual
/-- Node-count measure of a value, the fuel a parse of it needs. -/
def fsize : Json → Nat
  | .null => 1
  | .bool _ => 1
  | .num _ => 1
  | .str _ => 1
  | .arr l => 1 + fsizeL l
  | .obj fs => 1 + fsizeF fs

/-- Measure of an array's elements. -/
def fsizeL : JList → Nat
  | .nil => 1
  | .cons x xs => 1 + fsize x + fsizeL xs

/-- Measure of an object's fields. -/
def fsizeF : JFields → Nat
  | .nil => 1
  | .cons _ v fs => 1 + fsize v + fsizeF fs
end

/-- Every value has positive measure. -/
theorem fsize_pos (v : Json) : 1 ≤ fsize v := by
  cases v <;> simp [fsize]

/-- Every element list has positive measure. -/
theorem fsizeL_pos (l : JList) : 1 ≤ fsizeL l := by
  cases l <;> simp [fsizeL] <;> omega

/-- Every field list has positive measure. -/
theorem fsizeF_pos (fs : JFields) : 1 ≤ fsizeF fs := by
  cases fs <;> simp [fsizeF] <;> omega

mutual
/-- The measure of a value is bounded by its printed length. -/
theorem fsize_le_len : ∀ (ind : Nat) (v : Json),
    fsize v ≤ (stringifyAt ind v).length
  | ind, .null => by simp [fsize, stringifyAt]
  | ind, .bool true => by simp [fsize, stringifyAt]
  | ind, .bool false => by simp [fsize, stringifyAt]
  | ind, .num n => by
      simp only [fsize, stringifyAt]
      cases n with
      | ofNat m =>
          have h := natCharsF_ne_nil m m
          have : 0 < (natChars m).length :=
            List.length_pos.2 h
          simpa [intChars] using this
      | negSucc m => simp [intChars]
  | ind, .str s => by
      simp [fsize, stringifyAt, quoteJson]
  | ind, .arr .nil => by simp [fsize, fsizeL, stringifyAt]
  | ind, .arr (.cons x xs) => by
      have h := fsizeL_le_len (ind + 2) (.cons x xs)
      simp only [fsize, stringifyAt, List.length_cons, List.length_append,
        spaces, List.length_replicate]
      simp at h
      omega
  | ind, .obj .nil => by simp [fsize, fsizeF, stringifyAt]
  | ind, .obj (.cons k v fs) => by
      have h := fsizeF_le_len (ind + 2) (.cons k v fs)
      simp only [fsize, stringifyAt, List.length_cons, List.length_append,
        spaces, List.length_replicate]
      simp at h
      omega

/-- The measure of elements is bounded by their printed length plus two. -/
theorem fsizeL_le_len : ∀ (ind : Nat) (l : JList),
    fsizeL l ≤ (stringifyItems ind l).length + 2
  | ind, .nil => by simp [fsizeL, stringifyItems]
  | ind, .cons x .nil => by
      have h := fsize_le_len ind x
      simp only [fsizeL, fsizeL.eq_1, stringifyItems, List.length_append,
        spaces, List.length_replicate]
      omega
  | ind, .cons x (.cons y ys) => by
      have h1 := fsize_le_len ind x
      have h2 := fsizeL_le_len ind (.cons y ys)
      simp only [fsizeL, stringifyItems, List.length_append, List.length_cons,
        spaces, List.length_replicate]
      simp only [fsizeL, stringifyItems, List.length_append, List.length_cons,
        spaces, List.length_replicate] at h2
      omega

/-- The measure of fields is bounded by their printed length plus two. -/
theorem fsizeF_le_len : ∀ (ind : Nat) (fs : JFields),
    fsizeF fs ≤ (stringifyFields ind fs).length + 2
  | ind, .nil => by simp [fsizeF, stringifyFields]
  | ind, .cons k v .nil => by
      have h := fsize_le_len ind v
      simp only [fsizeF, fsizeF.eq_1, stringifyFields, List.length_append,
        List.length_cons, spaces, List.length_replicate]
      omega
  | ind, .cons k v (.cons k2 v2 fs) => by
      have h1 := fsize_le_len ind v
      have h2 := fsizeF_le_len ind (.cons k2 v2 fs)
      simp only [fsizeF, stringifyFields, List.length_append, List.length_cons,
        spaces, List.length_replicate]
      simp only [fsizeF, stringifyFields, List.length_append, List.length_cons,
        spaces, List.length_replicate] at h2
      omega
end

/-! ### Lemmas for claim C4: one-step unfoldings of the value parser -/

/-- Spaces are whitespace characters. -/
theorem spaces_all_ws (n : Nat) : ∀ c ∈ spaces n, jsonWsChar c = true := by
  intro c hc
  have := List.eq_of_mem_replicate hc
  subst this
  decide

/-- Parsing a `null` literal. -/
theorem parseVal_succ_null (f : Nat) (r2 : Str) :
    parseVal (f + 1) ('n' :: 'u' :: 'l' :: 'l' :: r2) = some (.null, r2) := rfl

/-- Parsing a `true` literal. -/
theorem parseVal_succ_true (f : Nat) (r2 : Str) :
    parseVal (f + 1) ('t' :: 'r' :: 'u' :: 'e' :: r2) = some (.bool true, r2) := rfl

/-- Parsing a `false` literal. -/
theorem parseVal_succ_false (f : Nat) (r2 : Str) :
    parseVal (f + 1) ('f' :: 'a' :: 'l' :: 's' :: 'e' :: r2) =
      some (.bool false, r2) := rfl

/-- Parsing a string literal delegates to the string scanner. -/
theorem parseVal_succ_str (f : Nat) (r : Str) :
    parseVal (f + 1) ('"' :: r) =
      (match parseStringRest r with
       | some (s2, rest) => some (.str s2, rest)
       | none => none) := rfl

/-- Parsing an opening bracket: empty array or element list. -/
theorem parseVal_succ_arr (f : Nat) (r : Str) :
    parseVal (f + 1) ('[' :: r) =
      (match skipJsonWs r with
       | [] => none
       | c2 :: r2 =>
           if c2 = ']' then some (.arr .nil, r2)
           else
             match parseElems f (c2 :: r2) with
             | some (items, rest) => some (.arr items, rest)
             | none => none) := rfl

/-- Parsing an opening brace: empty object or member list. -/
theorem parseVal_succ_obj (f : Nat) (r : Str) :
    parseVal (f + 1) ('\x7b' :: r) =
      (match skipJsonWs r with
       | [] => none
       | c2 :: r2 =>
           if c2 = '\x7d' then some (.obj .nil, r2)
           else
             match parseMembers f (c2 :: r2) with
             | some (fs, rest) => some (.obj fs, rest)
             | none => none) := rfl

/-- A head that is no keyword, quote or bracket is handed to the number
scanner. -/
theorem parseVal_succ_other (f : Nat) (c : Char) (r : Str)
    (hws : jsonWsChar c = false) (h1 : c ≠ 'n') (h2 : c ≠ 't') (h3 : c ≠ 'f')
    (h4 : c ≠ '"') (h5 : c ≠ '[') (h6 : c ≠ '\x7b') :
    parseVal (f + 1) (c :: r) = parseNumber (c :: r) := by
  conv_lhs => rw [parseVal]
  rw [skipJsonWs_cons_not hws]
  simp [h1, h2, h3, h4, h5, h6]

/-- A member list always begins at a quote. -/
theorem parseMembers_succ_quote (f : Nat) (r : Str) :
    parseMembers (f + 1) ('"' :: r) =
      (match parseStringRest r with
       | some (k, r2) =>
           (match skipJsonWs r2 with
            | [] => none
            | c2 :: r3 =>
                if c2 = ':' then
                  match parseVal f r3 with
                  | some (v, r4) =>
                      (match skipJsonWs r4 with
                       | [] => none
                       | c3 :: r5 =>
                           if c3 = ',' then
                             match parseMembers f r5 with
                             | some (fs, rest) => some (.cons k v fs, rest)
                             | none => none
                           else if c3 = '\x7d' then some (.cons k v .nil, r5)
                           else none)
                  | none => none
                else none)
       | none => none) := rfl

/-- Digit code points exclude every keyword, quote and bracket head. -/
theorem digit_not_special {c : Char} (h1 : 48 ≤ c.toNat) (h2 : c.toNat ≤ 57) :
    c ≠ 'n' ∧ c ≠ 't' ∧ c ≠ 'f' ∧ c ≠ '"' ∧ c ≠ '[' ∧ c ≠ '\x7b' :=
  ⟨fun h => by subst h; exact absurd h2 (by decide),
   fun h => by subst h; exact absurd h2 (by decide),
   fun h => by subst h; exact absurd h2 (by decide),
   fun h => by subst h; exact absurd h1 (by decide),
   fun h => by subst h; exact absurd h2 (by decide),
   fun h => by subst h; exact absurd h2 (by decide)⟩

/-- The separator-and-rest tail of a printed element list after its first
element. -/
def itemsTail : Nat → JList → Str
  | _, .nil => []
  | ind, .cons y ys => ',' :: '\n' :: stringifyItems ind (.cons y ys)

/-- A printed element list is indentation, the first element, then the tail. -/
theorem stringifyItems_decomp (ind : Nat) (x : Json) (xs : JList) :
    stringifyItems ind (.cons x xs) =
      spaces ind ++ (stringifyAt ind x ++ itemsTail ind xs) := by
  cases xs <;> simp [stringifyItems, itemsTail]

/-- The separator-and-rest tail of a printed field list after its first
field. -/
def fieldsTail : Nat → JFields → Str
  | _, .nil => []
  | ind, .cons k v fs => ',' :: '\n' :: stringifyFields ind (.cons k v fs)

/-- A printed field list is indentation, the quoted key, a colon-space, the
value, then the tail. -/
theorem stringifyFields_decomp (ind : Nat) (k : Str) (v : Json) (fs : JFields) :
    stringifyFields ind (.cons k v fs) =
      spaces ind ++ ('"' :: (concatMap jsonEscapeChar k ++
        ('"' :: (':' :: (' ' :: (stringifyAt ind v ++ fieldsTail ind fs)))))) := by
  cases fs <;> simp [stringifyFields, fieldsTail, quoteJson, List.append_assoc]

/-- An element tail followed by a close line starts at a valid delimiter. -/
theorem itemsTail_delimOk (ind tind : Nat) (xs : JList) (rest : Str) :
    delimOk (itemsTail ind xs ++ ('\n' :: (spaces tind ++ (']' :: rest)))) = true := by
  cases xs <;> simp [itemsTail, delimOk]

/-- A field tail followed by a close line starts at a valid delimiter. -/
theorem fieldsTail_delimOk (ind tind : Nat) (fs : JFields) (rest : Str) :
    delimOk (fieldsTail ind fs ++ ('\n' :: (spaces tind ++ ('\x7d' :: rest)))) = true := by
  cases fs <;> simp [fieldsTail, delimOk]

/-! ### The claim C4 round trip: parsing back the pretty-printer's output -/

mutual
/-- Parsing the pretty-printed form of a value in front of a delimiter
recovers the value exactly, given fuel at least the value's node count. -/
theorem parseVal_rt : ∀ (f : Nat) (v : Json) (ind : Nat) (rest : Str),
    fsize v ≤ f → delimOk rest = true →
    parseVal f (stringifyAt ind v ++ rest) = some (v, rest)
  | 0, v, _, _, hf, _ => absurd hf (by have := fsize_pos v; omega)
  | f + 1, .null, ind, rest, _, _ => by
      show parseVal (f + 1) ('n' :: 'u' :: 'l' :: 'l' :: rest) = some (.null, rest)
      exact parseVal_succ_null f rest
  | f + 1, .bool true, ind, rest, _, _ => by
      show parseVal (f + 1) ('t' :: 'r' :: 'u' :: 'e' :: rest) = some (.bool true, rest)
      exact parseVal_succ_true f rest
  | f + 1, .bool false, ind, rest, _, _ => by
      show parseVal (f + 1) ('f' :: 'a' :: 'l' :: 's' :: 'e' :: rest) =
        some (.bool false, rest)
      exact parseVal_succ_false f rest
  | f + 1, .num n, ind, rest, _, hrest => by
      show parseVal (f + 1) (intChars n ++ rest) = some (.num n, rest)
      cases n with
      | ofNat m =>
          cases hnat : natChars m with
          | nil => exact absurd hnat (natCharsF_ne_nil m m)
          | cons c ds =>
              have hd : 48 ≤ c.toNat ∧ c.toNat ≤ 57 := by
                apply natCharsF_digits (m + 1) m
                rw [show natCharsF (m + 1) m = natChars m from rfl, hnat]
                simp
              obtain ⟨hws, _⟩ := digit_head_ok hd.1 hd.2
              obtain ⟨g1, g2, g3, g4, g5, g6⟩ := digit_not_special hd.1 hd.2
              have hstep : intChars (Int.ofNat m) ++ rest = c :: (ds ++ rest) := by
                show natChars m ++ rest = c :: (ds ++ rest)
                rw [hnat]
                rfl
              rw [hstep, parseVal_succ_other f c (ds ++ rest) hws g1 g2 g3 g4 g5 g6]
              have h2 := parseNumber_rt (Int.ofNat m) rest hrest
              rw [hstep] at h2
              exact h2
      | negSucc m =>
          have hstep : intChars (Int.negSucc m) ++ rest =
              '-' :: (natChars (m + 1) ++ rest) := rfl
          rw [hstep, parseVal_succ_other f '-' (natChars (m + 1) ++ rest)
            (by decide) (by decide) (by decide) (by decide) (by decide)
            (by decide) (by decide)]
          have h2 := parseNumber_rt (Int.negSucc m) rest hrest
          rw [hstep] at h2
          exact h2
  | f + 1, .str s, ind, rest, _, _ => by
      have hstep : stringifyAt ind (.str s) ++ rest =
          '"' :: (concatMap jsonEscapeChar s ++ '"' :: rest) := by
        show ('"' :: (concatMap jsonEscapeChar s ++ ['"'])) ++ rest = _
        simp
      rw [hstep, parseVal_succ_str, parseStringRest_rt s rest]
  | f + 1, .arr .nil, ind, rest, _, _ => by
      show parseVal (f + 1) ('[' :: (']' :: rest)) = some (.arr .nil, rest)
      rw [parseVal_succ_arr, skipJsonWs_cons_not (by decide)]
      rfl
  | f + 1, .arr (.cons x xs), ind, rest, hf, _ => by
      obtain ⟨c2, t2, hx, hxws, hxne⟩ := stringifyAt_head (ind + 2) x
      have hinput : stringifyAt ind (.arr (.cons x xs)) ++ rest
          = '[' :: ('\n' :: (stringifyItems (ind + 2) (.cons x xs) ++
              ('\n' :: (spaces ind ++ (']' :: rest))))) := by
        show ('[' :: '\n' :: (stringifyItems (ind + 2) (.cons x xs) ++
          '\n' :: (spaces ind ++ [']']))) ++ rest = _
        simp [List.append_assoc]
      have hskip : skipJsonWs ('\n' :: (stringifyItems (ind + 2) (.cons x xs) ++
            ('\n' :: (spaces ind ++ (']' :: rest))))) =
          c2 :: (t2 ++ (itemsTail (ind + 2) xs ++
            ('\n' :: (spaces ind ++ (']' :: rest))))) := by
        rw [skipJsonWs_cons_ws (by decide), stringifyItems_decomp,
          List.append_assoc, skipJsonWs_spaces, List.append_assoc, hx,
          List.cons_append, skipJsonWs_cons_not hxws]
      have helems : parseElems f (c2 :: (t2 ++ (itemsTail (ind + 2) xs ++
            ('\n' :: (spaces ind ++ (']' :: rest)))))) = some (.cons x xs, rest) := by
        have h1 : c2 :: (t2 ++ (itemsTail (ind + 2) xs ++
              ('\n' :: (spaces ind ++ (']' :: rest)))))
            = stringifyAt (ind + 2) x ++ (itemsTail (ind + 2) xs ++
              ('\n' :: (spaces ind ++ (']' :: rest)))) := by
          rw [hx]
          rfl
        have h2 := parseElems_rt f x xs (ind + 2) ind rest
          (by simp [fsize] at hf; omega)
        rw [stringifyItems_decomp, List.append_assoc, List.append_assoc,
          parseElems_ws f (spaces (ind + 2)) (spaces_all_ws (ind + 2))] at h2
        rw [h1]
        exact h2
      rw [hinput, parseVal_succ_arr, hskip]
      simp [hxne, helems]
  | f + 1, .obj .nil, ind, rest, _, _ => by
      show parseVal (f + 1) ('\x7b' :: ('\x7d' :: rest)) = some (.obj .nil, rest)
      rw [parseVal_succ_obj, skipJsonWs_cons_not (by decide)]
      rfl
  | f + 1, .obj (.cons k v fs), ind, rest, hf, _ => by
      have hinput : stringifyAt ind (.obj (.cons k v fs)) ++ rest
          = '\x7b' :: ('\n' :: (stringifyFields (ind + 2) (.cons k v fs) ++
              ('\n' :: (spaces ind ++ ('\x7d' :: rest))))) := by
        show ('\x7b' :: '\n' :: (stringifyFields (ind + 2) (.cons k v fs) ++
          '\n' :: (spaces ind ++ ['\x7d']))) ++ rest = _
        simp [List.append_assoc]
      have hskip : skipJsonWs ('\n' :: (stringifyFields (ind + 2) (.cons k v fs) ++
            ('\n' :: (spaces ind ++ ('\x7d' :: rest))))) =
          '"' :: ((concatMap jsonEscapeChar k ++
            ('"' :: (':' :: (' ' :: (stringifyAt (ind + 2) v ++
              fieldsTail (ind + 2) fs))))) ++
            ('\n' :: (spaces ind ++ ('\x7d' :: rest)))) := by
        rw [skipJsonWs_cons_ws (by decide), stringifyFields_decomp,
          List.append_assoc, skipJsonWs_spaces, List.cons_append,
          skipJsonWs_cons_not (by decide)]
      have hmem : parseMembers f ('"' :: ((concatMap jsonEscapeChar k ++
            ('"' :: (':' :: (' ' :: (stringifyAt (ind + 2) v ++
              fieldsTail (ind + 2) fs))))) ++
            ('\n' :: (spaces ind ++ ('\x7d' :: rest))))) =
          some (.cons k v fs, rest) := by
        have h2 := parseMembers_rt f k v fs (ind + 2) ind rest
          (by simp [fsize] at hf; omega)
        rw [stringifyFields_decomp, List.append_assoc,
          parseMembers_ws f (spaces (ind + 2)) (spaces_all_ws (ind + 2)),
          List.cons_append] at h2
        exact h2
      rw [hinput, parseVal_succ_obj, hskip]
      simp only [hmem]
      simp
/-- Parsing the printed elements of a non-empty array, terminated by a close
line, recovers the element list. -/
theorem parseElems_rt : ∀ (f : Nat) (x : Json) (xs : JList) (ind tind : Nat)
    (rest : Str), fsizeL (.cons x xs) ≤ f →
    parseElems f (stringifyItems ind (.cons x xs) ++
      ('\n' :: (spaces tind ++ (']' :: rest)))) = some (.cons x xs, rest)
  | 0, x, xs, _, _, _, hf => absurd hf (by
      have h1 := fsize_pos x
      have h2 := fsizeL_pos xs
      simp only [fsizeL]
      omega)
  | f + 1, x, xs, ind, tind, rest, hf => by
      rw [parseElems]
      have hv : parseVal f (stringifyItems ind (.cons x xs) ++
            ('\n' :: (spaces tind ++ (']' :: rest))))
          = some (x, itemsTail ind xs ++ ('\n' :: (spaces tind ++ (']' :: rest)))) := by
        rw [stringifyItems_decomp, List.append_assoc, List.append_assoc,
          parseVal_ws f (spaces ind) (spaces_all_ws ind)]
        exact parseVal_rt f x ind _
          (by have := fsizeL_pos xs; simp [fsizeL] at hf; omega)
          (itemsTail_delimOk ind tind xs rest)
      rw [hv]
      cases xs with
      | nil =>
          have hsk : skipJsonWs (itemsTail ind JList.nil ++
              ('\n' :: (spaces tind ++ (']' :: rest)))) = ']' :: rest := by
            show skipJsonWs ('\n' :: (spaces tind ++ (']' :: rest))) = ']' :: rest
            rw [skipJsonWs_cons_ws (by decide), skipJsonWs_spaces,
              skipJsonWs_cons_not (by decide)]
          simp [hsk]
      | cons y ys =>
          have hsk : skipJsonWs (itemsTail ind (JList.cons y ys) ++
              ('\n' :: (spaces tind ++ (']' :: rest)))) =
              ',' :: ('\n' :: (stringifyItems ind (.cons y ys) ++
                ('\n' :: (spaces tind ++ (']' :: rest))))) := by
            show skipJsonWs (',' :: ('\n' :: (stringifyItems ind (.cons y ys) ++
              ('\n' :: (spaces tind ++ (']' :: rest)))))) = _
            rw [skipJsonWs_cons_not (by decide)]
          have hrec : parseElems f ('\n' :: (stringifyItems ind (.cons y ys) ++
              ('\n' :: (spaces tind ++ (']' :: rest))))) =
              some (.cons y ys, rest) := by
            rw [show ('\n' :: (stringifyItems ind (.cons y ys) ++
              ('\n' :: (spaces tind ++ (']' :: rest))))) =
              ['\n'] ++ (stringifyItems ind (.cons y ys) ++
                ('\n' :: (spaces tind ++ (']' :: rest)))) from rfl,
              parseElems_ws f ['\n'] (by intro c hc; simp at hc; subst hc; decide)]
            exact parseElems_rt f y ys ind tind rest
              (by have := fsize_pos x; simp [fsizeL] at hf ⊢; omega)
          simp [hsk, hrec]
/-- Parsing the printed fields of a non-empty object, terminated by a close
line, recovers the field list. -/
theorem parseMembers_rt : ∀ (f : Nat) (k : Str) (v : Json) (fs : JFields)
    (ind tind : Nat) (rest : Str), fsizeF (.cons k v fs) ≤ f →
    parseMembers f (stringifyFields ind (.cons k v fs) ++
      ('\n' :: (spaces tind ++ ('\x7d' :: rest)))) = some (.cons k v fs, rest)
  | 0, k, v, fs, _, _, _, hf => absurd hf (by
      have h1 := fsize_pos v
      have h2 := fsizeF_pos fs
      simp only [fsizeF]
      omega)
  | f + 1, k, v, fs, ind, tind, rest, hf => by
      have hinput : stringifyFields ind (.cons k v fs) ++
            ('\n' :: (spaces tind ++ ('\x7d' :: rest)))
          = spaces ind ++ ('"' :: (concatMap jsonEscapeChar k ++
              ('"' :: (':' :: (' ' :: (stringifyAt ind v ++
                (fieldsTail ind fs ++ ('\n' :: (spaces tind ++
                  ('\x7d' :: rest)))))))))) := by
        rw [stringifyFields_decomp]
        simp [List.append_assoc]
      rw [hinput, parseMembers_ws (f + 1) (spaces ind) (spaces_all_ws ind),
        parseMembers_succ_quote, parseStringRest_rt k]
      have hval : parseVal f (' ' :: (stringifyAt ind v ++
            (fieldsTail ind fs ++ ('\n' :: (spaces tind ++ ('\x7d' :: rest))))))
          = some (v, fieldsTail ind fs ++
              ('\n' :: (spaces tind ++ ('\x7d' :: rest)))) := by
        rw [show (' ' :: (stringifyAt ind v ++ (fieldsTail ind fs ++
            ('\n' :: (spaces tind ++ ('\x7d' :: rest)))))) =
          [' '] ++ (stringifyAt ind v ++ (fieldsTail ind fs ++
            ('\n' :: (spaces tind ++ ('\x7d' :: rest))))) from rfl,
          parseVal_ws f [' '] (by intro c hc; simp at hc; subst hc; decide)]
        exact parseVal_rt f v ind _
          (by have := fsizeF_pos fs; simp [fsizeF] at hf; omega)
          (fieldsTail_delimOk ind tind fs rest)
      cases fs with
      | nil =>
          have hsk : skipJsonWs (fieldsTail ind JFields.nil ++
              ('\n' :: (spaces tind ++ ('\x7d' :: rest)))) = '\x7d' :: rest := by
            show skipJsonWs ('\n' :: (spaces tind ++ ('\x7d' :: rest))) = _
            rw [skipJsonWs_cons_ws (by decide), skipJsonWs_spaces,
              skipJsonWs_cons_not (by decide)]
          simp [skipJsonWs_cons_not (show jsonWsChar ':' = false by decide),
            hval, hsk]
      | cons k2 v2 fs2 =>
          have hsk : skipJsonWs (fieldsTail ind (JFields.cons k2 v2 fs2) ++
              ('\n' :: (spaces tind ++ ('\x7d' :: rest)))) =
              ',' :: ('\n' :: (stringifyFields ind (.cons k2 v2 fs2) ++
                ('\n' :: (spaces tind ++ ('\x7d' :: rest))))) := by
            show skipJsonWs (',' :: ('\n' :: (stringifyFields ind (.cons k2 v2 fs2) ++
              ('\n' :: (spaces tind ++ ('\x7d' :: rest)))))) = _
            rw [skipJsonWs_cons_not (by decide)]
          have hrec : parseMembers f ('\n' :: (stringifyFields ind (.cons k2 v2 fs2) ++
              ('\n' :: (spaces tind ++ ('\x7d' :: rest))))) =
              some (.cons k2 v2 fs2, rest) := by
            rw [show ('\n' :: (stringifyFields ind (.cons k2 v2 fs2) ++
              ('\n' :: (spaces tind ++ ('\x7d' :: rest))))) =
              ['\n'] ++ (stringifyFields ind (.cons k2 v2 fs2) ++
                ('\n' :: (spaces tind ++ ('\x7d' :: rest)))) from rfl,
              parseMembers_ws f ['\n'] (by intro c hc; simp at hc; subst hc; decide)]
            exact parseMembers_rt f k2 v2 fs2 ind tind rest
              (by have := fsize_pos v; simp [fsizeF] at hf ⊢; omega)
          simp [skipJsonWs_cons_not (show jsonWsChar ':' = false by decide),
            hval, hsk, hrec]
end

/-- `JSON.parse` recovers every value from its `JSON.stringify(v, null, 2)`
rendering. -/
theorem parseJson_stringify (v : Json) : parseJson (stringify v) = some v := by
  unfold parseJson
  have h := parseVal_rt (2 * (stringify v).length + 2) v 0 []
    (by have := fsize_le_len 0 v; simp only [stringify] at *; omega) rfl
  rw [List.append_nil] at h
  rw [show stringifyAt 0 v = stringify v from rfl] at h
  rw [h]
  rfl

/-- C4: for every JSON value, the raw display mode output is exactly the value
pretty-printed by `JSON.stringify(data, null, 2)` with stable 2-space
indentation, HTML-escaped, inside a `<pre class="json-raw"><code>` block;
HTML-unescaping that code-block content gives back the pretty-printed text
verbatim, and reparsing it as JSON yields a value deep-equal (here: equal) to
the input. -/
theorem C4_raw_mode_roundtrip (v : Json) :
    jsonToRaw v = "<pre class=\"json-raw\"><code>".data ++
      escapeHtml (stringify v) ++ "</code></pre>".data
    ∧ unescapeHtml (escapeHtml (stringify v)) = stringify v
    ∧ parseJson (unescapeHtml (escapeHtml (stringify v))) = some v :=
  ⟨rfl, unescapeHtml_escapeHtml (stringify v), by
    rw [unescapeHtml_escapeHtml]
    exact parseJson_stringify v⟩

end PdfEngine
